import Mathlib

/-!
Verification of the chaquopy-stubgen stub-generation engine
(`src/chaquopy_stubgen/stubgen.py`) against its specification.

The development shallowly embeds the type-translation pipeline, the
functional-interface mangling helper, the identifier policy, the argument-name
inference, the javadoc overload splitter, the per-package dependency scheduler
and the output writer as executable Lean definitions, and proves (or refutes)
the specification claims about them.

Conventions used throughout:
* Python `TypeStr`/`ArgSig`/... dataclasses become Lean structures/inductives
  with the same field names.
* Python `None`-able values become `Option`.
* Python sets threaded through the traversal (`classes_done`, `classes_used`,
  `classes_failed`) become `List String` values with set-like insertion; code
  points where the source sorts a set (`sorted(set(...))`) are modelled as
  `py_dedup` followed by a stable sort (`py_sorted`/`List.insertionSort`).
* Code that can raise (`raise ValueError` in `translate_type_name`) returns
  `Except String`; exceptions raised by the JVM reflection bridge
  (`jpype.JException`) are environment failures outside the embedded universe:
  the reflective metadata is modelled as total, so `classes_failed` stays
  empty, matching a run in which no class fails to load.
-/

deriving instance DecidableEq for Except

namespace Stubgen

/-! ### Computable string primitives

The Python string operations the source uses are embedded over the character
list `String.data`, so that every model function evaluates inside the kernel
(`decide`/`rfl`).  Each helper implements exactly the corresponding Python
operation. -/

/-- Python `s.startswith(pre)`. -/
def str_startsWith (s pre : String) : Bool := pre.data.isPrefixOf s.data

/-- Python `s.endswith(post)`. -/
def str_endsWith (s post : String) : Bool := post.data.isSuffixOf s.data

/-- Python `c in s` for a single character. -/
def str_contains_char (s : String) (c : Char) : Bool := s.data.contains c

/-- Python string comparison `a <= b` (code-point lexicographic). -/
def str_le (a b : String) : Bool := decide (a.data ≤ b.data)

/-- Python `s.split(sep)` for a one-character separator, on character
lists (`"".split(sep) == [""]`). -/
def split_chars (sep : Char) : List Char → List (List Char)
  | [] => [[]]
  | c :: rest =>
      let r := split_chars sep rest
      if c = sep then [] :: r
      else
        match r with
        | h :: t => (c :: h) :: t
        | [] => [[c]]

/-- Python `s.split(sep)` for a one-character separator. -/
def py_split (sep : Char) (s : String) : List String :=
  (split_chars sep s.data).map String.mk

/-- Python `sep.join(l)`. -/
def str_intercalate (sep : String) : List String → String
  | [] => ""
  | [x] => x
  | x :: rest => x ++ sep ++ str_intercalate sep rest

/-- One fuel-indexed step list for Python `s.replace(pat, repl)`:
left-to-right, non-overlapping (the fuel is an upper bound on the number of
scanning steps; `s.length` always suffices). -/
def replace_go (pat repl : List Char) : Nat → List Char → List Char
  | 0, s => s
  | _ + 1, [] => []
  | fuel + 1, c :: rest =>
      if pat ≠ [] && pat.isPrefixOf (c :: rest) then
        repl ++ replace_go pat repl fuel ((c :: rest).drop pat.length)
      else c :: replace_go pat repl fuel rest

/-- Python `s.replace(pattern, replacement)` (all occurrences). -/
def str_replace (s pattern replacement : String) : String :=
  String.mk (replace_go pattern.data replacement.data s.data.length s.data)

/-- Python set-like de-duplication keeping first occurrences (used where the
source sorts a set, so only the member set matters). -/
def py_dedup_go (seen : List String) : List String → List String
  | [] => []
  | x :: rest =>
      if seen.contains x then py_dedup_go seen rest
      else x :: py_dedup_go (seen ++ [x]) rest

/-- De-duplicate a list of strings, keeping first occurrences. -/
def py_dedup (l : List String) : List String := py_dedup_go [] l

/-- Python `sorted` on strings: a stable comparison sort; over the
duplicate-free or content-only uses in the source, `insertionSort` by
code-point order computes the same list. -/
def py_sorted (l : List String) : List String :=
  l.insertionSort (fun a b => a.data ≤ b.data)

/-- Model of the frozen dataclass `TypeStr`: a recursive type-expression tree
with a `name` and optional ordered `type_args` (`None` and `[]` are distinct,
as for the Python dataclass). -/
inductive TypeStr where
  | mk (name : String) (type_args : Option (List TypeStr)) : TypeStr

/-- The `name` field of a `TypeStr`. -/
def TypeStr.name : TypeStr → String
  | .mk n _ => n

/-- The `type_args` field of a `TypeStr`. -/
def TypeStr.type_args : TypeStr → Option (List TypeStr)
  | .mk _ a => a

mutual

/-- Decidable structural equality for `TypeStr` (the Python dataclass is
compared field by field). -/
def TypeStr.decEq : (a b : TypeStr) → Decidable (a = b)
  | .mk n1 a1, .mk n2 a2 =>
    match String.decEq n1 n2, TypeStr.decEqOpt a1 a2 with
    | isTrue h1, isTrue h2 => isTrue (by rw [h1, h2])
    | isFalse h1, _ => isFalse (fun h => by cases h; exact h1 rfl)
    | _, isFalse h2 => isFalse (fun h => by cases h; exact h2 rfl)

/-- Decidable equality for optional `TypeStr` argument lists. -/
def TypeStr.decEqOpt : (a b : Option (List TypeStr)) → Decidable (a = b)
  | none, none => isTrue rfl
  | none, some _ => isFalse (by simp)
  | some _, none => isFalse (by simp)
  | some l1, some l2 =>
    match TypeStr.decEqList l1 l2 with
    | isTrue h => isTrue (by rw [h])
    | isFalse h => isFalse (fun hh => by cases hh; exact h rfl)

/-- Decidable equality for `TypeStr` lists. -/
def TypeStr.decEqList : (a b : List TypeStr) → Decidable (a = b)
  | [], [] => isTrue rfl
  | [], _ :: _ => isFalse (by simp)
  | _ :: _, [] => isFalse (by simp)
  | h1 :: t1, h2 :: t2 =>
    match TypeStr.decEq h1 h2, TypeStr.decEqList t1 t2 with
    | isTrue e1, isTrue e2 => isTrue (by rw [e1, e2])
    | isFalse e1, _ => isFalse (fun h => by cases h; exact e1 rfl)
    | _, isFalse e2 => isFalse (fun h => by cases h; exact e2 rfl)

end

instance : DecidableEq TypeStr := TypeStr.decEq

/-- Model of the dataclass `TypeVarStr`. -/
structure TypeVarStr where
  java_name : String
  python_name : String
  bound : Option TypeStr := none
deriving DecidableEq

/-- Model of the dataclass `ArgSig`. -/
structure ArgSig where
  name : String
  arg_type : Option TypeStr := none
  var_args : Bool := false
deriving DecidableEq

/-- Model of the dataclass `JavaFunctionSig`. -/
structure JavaFunctionSig where
  name : String
  static : Bool
  args : List ArgSig
  ret_type : TypeStr
  type_vars : List TypeVarStr
deriving DecidableEq

/-! ## Identifier policy (`pysafe`, stubgen.py lines 84-105) -/

/-- The Python 3 keyword list (`keyword.kwlist`), which `keyword.iskeyword`
consults. -/
def PYTHON_KEYWORDS : List String :=
  ["False", "None", "True", "and", "as", "assert", "async", "await", "break",
   "class", "continue", "def", "del", "elif", "else", "except", "finally",
   "for", "from", "global", "if", "in", "is", "lambda", "nonlocal",
   "not", "or", "pass", "raise", "return", "try", "while", "with", "yield",
   "import"]

/-- `EXTRA_RESERVED_WORDS = {"exec", "print"}` (removed in Python 3.0). -/
def EXTRA_RESERVED_WORDS : List String := ["exec", "print"]

/-- `is_reserved_word`: `keyword.iskeyword(word) or word in EXTRA_RESERVED_WORDS`. -/
def is_reserved_word (word : String) : Bool :=
  PYTHON_KEYWORDS.contains word || EXTRA_RESERVED_WORDS.contains word

/-- The dunder test applied first by `pysafe`:
`s.startswith("__") and s.endswith("__") and len(s) >= 4`. -/
def dunder_shaped (s : String) : Bool :=
  str_startsWith s "__" && str_endsWith s "__" && decide (4 ≤ s.length)

/-- Model of `pysafe`: dunder-shaped identifiers are rejected (`None`),
reserved words get a `_` suffix, everything else passes through. -/
def pysafe (s : String) : Option String :=
  if dunder_shaped s then none
  else if is_reserved_word s then some (s ++ "_")
  else some s

/-- The member-dropping guard of `generate_java_field_stub`
(stubgen.py lines 1045-1048): a field whose name `pysafe` rejects is dropped,
otherwise the `name: annotation = ...` line is emitted under the safe name.
`field_type_annotation` stands for the already-rendered type annotation. -/
def generate_java_field_stub_line (field_name field_type_annotation : String) :
    Option String :=
  match pysafe field_name with
  | none => none
  | some py_safe_field_name =>
      some (py_safe_field_name ++ ": " ++ field_type_annotation ++ " = ...")

/-- The member-dropping guard of `generate_java_method_stub`
(stubgen.py lines 993-1012): an overload whose method name `pysafe` rejects is
skipped (`continue`), otherwise its `def` line is emitted under the safe name.
`args_str` and `ret_str` stand for the already-rendered pieces. -/
def generate_java_method_def_line (name args_str ret_str : String) :
    Option String :=
  match pysafe name with
  | none => none
  | some function_name =>
      some ("def " ++ function_name ++ "(" ++ args_str ++ ") -> " ++
        ret_str ++ ": ...")

/-! ## Primitive translation table (stubgen.py lines 502-525) -/

/-- Model of the dataclass `Primitive`. -/
structure Primitive where
  java_primitive : String
  java_object : String
  python_primitive : String
  python_type : String
deriving DecidableEq

/-- The fixed 9-entry primitive table `PRIMITIVES`. -/
def PRIMITIVES : List Primitive :=
  [⟨"void", "java.lang.Void", "java.jvoid", "None"⟩,
   ⟨"byte", "java.lang.Byte", "java.jbyte", "int"⟩,
   ⟨"short", "java.lang.Short", "java.jshort", "int"⟩,
   ⟨"int", "java.lang.Integer", "java.jint", "int"⟩,
   ⟨"long", "java.lang.Long", "java.jlong", "int"⟩,
   ⟨"boolean", "java.lang.Boolean", "java.jboolean", "bool"⟩,
   ⟨"double", "java.lang.Double", "java.jdouble", "float"⟩,
   ⟨"float", "java.lang.Float", "java.jfloat", "float"⟩,
   ⟨"char", "java.lang.Character", "java.jchar", "str"⟩]

/-- `TYPE_NAME_TO_PRIMITIVE_MAP`: the dict keyed by both the primitive name and
the boxed name (the two key families are disjoint, so dict lookup is the first
matching entry). -/
def TYPE_NAME_TO_PRIMITIVE_MAP (type_name : String) : Option Primitive :=
  PRIMITIVES.find? (fun p => p.java_primitive == type_name ||
    p.java_object == type_name)

/-- The final `len(union)` dispatch of `translate_type_name`
(stubgen.py lines 584-588). -/
def union_to_type_str (union : List TypeStr) (type_name : String)
    (type_args : Option (List TypeStr)) : TypeStr :=
  match union with
  | [t] => TypeStr.mk t.name t.type_args
  | [] => TypeStr.mk type_name type_args
  | ts => TypeStr.mk "typing.Union" (some ts)

/-- Model of `translate_type_name` (stubgen.py lines 528-588). The `union`
list is built in source order: primitive-table entry (raising `ValueError`
when both the array-element and argument flags are set), then the
`java.lang.String` / `java.lang.Class` / `java.lang.Object` special cases
(the guarding names are mutually exclusive, so sequential appends coincide
with this concatenation). -/
def translate_type_name (type_name : String)
    (type_args : Option (List TypeStr) := none)
    (is_argument : Bool := false) (is_array_param : Bool := false) :
    Except String TypeStr :=
  match TYPE_NAME_TO_PRIMITIVE_MAP type_name with
  | some primitive =>
      if is_array_param && is_argument then
        .error ("Type " ++ type_name ++
          " cannot be both an array parameter and an argument type.")
      else
        let union : List TypeStr :=
          (if is_array_param then [TypeStr.mk primitive.python_primitive none]
           else [TypeStr.mk primitive.python_type none]) ++
          (if is_argument then
            [TypeStr.mk primitive.python_primitive none,
             TypeStr.mk primitive.java_object none]
           else [])
        .ok (union_to_type_str union type_name type_args)
  | none =>
      let union : List TypeStr :=
        (if type_name == "java.lang.String" then
          (if is_array_param then [TypeStr.mk "java.lang.String" none]
           else [TypeStr.mk "str" none] ++
             (if is_argument then [TypeStr.mk "java.lang.String" none] else []))
         else []) ++
        (if type_name == "java.lang.Class" then
          [TypeStr.mk "typing.Type" type_args] else []) ++
        (if type_name == "java.lang.Object" then
          [TypeStr.mk "java.lang.Object" none] ++
          (if is_argument then
            [TypeStr.mk "int" none, TypeStr.mk "bool" none,
             TypeStr.mk "float" none, TypeStr.mk "str" none]
           else [])
         else [])
      .ok (union_to_type_str union type_name type_args)

/-! ## The reflective Java type model

`python_type` dispatches on the `java.lang.reflect` interfaces
`ParameterizedType`, `TypeVariable`, `WildcardType`, `GenericArrayType` and on
plain `Class` objects (`isArray`/`getName`).  The embedding stores exactly the
reflection facts the translator reads.  Java guarantees type variables and
wildcards at least one (upper) bound — unbounded ones carry `java.lang.Object`
— so the first bound is a separate field. -/

/-- Reflected Java type nodes as read by `python_type`:
`parameterized` carries `getRawType().getTypeName()` and
`getActualTypeArguments()`; `typeVariable` carries `getName()` and
`getBounds()` (first bound explicit); `wildcard` carries `getUpperBounds()`
(first explicit) and `getLowerBounds()`; `genericArray` carries
`getGenericComponentType()`; `jclass` carries `getName()` and, for array
classes, `getComponentType()`. -/
inductive JavaType where
  | parameterized (rawTypeName : String) (actualTypeArguments : List JavaType)
  | typeVariable (name : String) (bound1 : JavaType) (boundRest : List JavaType)
  | wildcard (upper1 : JavaType) (upperRest : List JavaType)
      (lowerBounds : List JavaType)
  | genericArray (componentType : JavaType)
  | jclass (name : String) (componentType : Option JavaType)

mutual

/-- Decidable structural equality for `JavaType` (reflection objects compare
by their reflective identity, which the embedding represents structurally). -/
def JavaType.decEq : (a b : JavaType) → Decidable (a = b)
  | .parameterized r1 a1, .parameterized r2 a2 =>
    match String.decEq r1 r2, JavaType.decEqList a1 a2 with
    | isTrue h1, isTrue h2 => isTrue (by rw [h1, h2])
    | isFalse h1, _ => isFalse (fun h => by cases h; exact h1 rfl)
    | _, isFalse h2 => isFalse (fun h => by cases h; exact h2 rfl)
  | .typeVariable n1 b1 r1, .typeVariable n2 b2 r2 =>
    match String.decEq n1 n2, JavaType.decEq b1 b2, JavaType.decEqList r1 r2 with
    | isTrue h1, isTrue h2, isTrue h3 => isTrue (by rw [h1, h2, h3])
    | isFalse h1, _, _ => isFalse (fun h => by cases h; exact h1 rfl)
    | _, isFalse h2, _ => isFalse (fun h => by cases h; exact h2 rfl)
    | _, _, isFalse h3 => isFalse (fun h => by cases h; exact h3 rfl)
  | .wildcard u1 r1 l1, .wildcard u2 r2 l2 =>
    match JavaType.decEq u1 u2, JavaType.decEqList r1 r2,
        JavaType.decEqList l1 l2 with
    | isTrue h1, isTrue h2, isTrue h3 => isTrue (by rw [h1, h2, h3])
    | isFalse h1, _, _ => isFalse (fun h => by cases h; exact h1 rfl)
    | _, isFalse h2, _ => isFalse (fun h => by cases h; exact h2 rfl)
    | _, _, isFalse h3 => isFalse (fun h => by cases h; exact h3 rfl)
  | .genericArray c1, .genericArray c2 =>
    match JavaType.decEq c1 c2 with
    | isTrue h => isTrue (by rw [h])
    | isFalse h => isFalse (fun hh => by cases hh; exact h rfl)
  | .jclass n1 c1, .jclass n2 c2 =>
    match String.decEq n1 n2, JavaType.decEqOpt c1 c2 with
    | isTrue h1, isTrue h2 => isTrue (by rw [h1, h2])
    | isFalse h1, _ => isFalse (fun h => by cases h; exact h1 rfl)
    | _, isFalse h2 => isFalse (fun h => by cases h; exact h2 rfl)
  | .parameterized _ _, .typeVariable _ _ _ => isFalse (by simp)
  | .parameterized _ _, .wildcard _ _ _ => isFalse (by simp)
  | .parameterized _ _, .genericArray _ => isFalse (by simp)
  | .parameterized _ _, .jclass _ _ => isFalse (by simp)
  | .typeVariable _ _ _, .parameterized _ _ => isFalse (by simp)
  | .typeVariable _ _ _, .wildcard _ _ _ => isFalse (by simp)
  | .typeVariable _ _ _, .genericArray _ => isFalse (by simp)
  | .typeVariable _ _ _, .jclass _ _ => isFalse (by simp)
  | .wildcard _ _ _, .parameterized _ _ => isFalse (by simp)
  | .wildcard _ _ _, .typeVariable _ _ _ => isFalse (by simp)
  | .wildcard _ _ _, .genericArray _ => isFalse (by simp)
  | .wildcard _ _ _, .jclass _ _ => isFalse (by simp)
  | .genericArray _, .parameterized _ _ => isFalse (by simp)
  | .genericArray _, .typeVariable _ _ _ => isFalse (by simp)
  | .genericArray _, .wildcard _ _ _ => isFalse (by simp)
  | .genericArray _, .jclass _ _ => isFalse (by simp)
  | .jclass _ _, .parameterized _ _ => isFalse (by simp)
  | .jclass _ _, .typeVariable _ _ _ => isFalse (by simp)
  | .jclass _ _, .wildcard _ _ _ => isFalse (by simp)
  | .jclass _ _, .genericArray _ => isFalse (by simp)

/-- Decidable equality for optional `JavaType` components. -/
def JavaType.decEqOpt : (a b : Option JavaType) → Decidable (a = b)
  | none, none => isTrue rfl
  | none, some _ => isFalse (by simp)
  | some _, none => isFalse (by simp)
  | some t1, some t2 =>
    match JavaType.decEq t1 t2 with
    | isTrue h => isTrue (by rw [h])
    | isFalse h => isFalse (fun hh => by cases hh; exact h rfl)

/-- Decidable equality for `JavaType` lists. -/
def JavaType.decEqList : (a b : List JavaType) → Decidable (a = b)
  | [], [] => isTrue rfl
  | [], _ :: _ => isFalse (by simp)
  | _ :: _, [] => isFalse (by simp)
  | h1 :: t1, h2 :: t2 =>
    match JavaType.decEq h1 h2, JavaType.decEqList t1 t2 with
    | isTrue e1, isTrue e2 => isTrue (by rw [e1, e2])
    | isFalse e1, _ => isFalse (fun h => by cases h; exact e1 rfl)
    | _, isFalse e2 => isFalse (fun h => by cases h; exact e2 rfl)

end

instance : DecidableEq JavaType := JavaType.decEq

/-- `PARAMETER_TO_ARRAY_TYPE_MAP` (stubgen.py lines 591-600). -/
def PARAMETER_TO_ARRAY_TYPE_MAP : List (String × String) :=
  [("java.jboolean", "java.chaquopy.JavaArrayJBoolean"),
   ("java.jbyte", "java.chaquopy.JavaArrayJByte"),
   ("java.jshort", "java.chaquopy.JavaArrayJShort"),
   ("java.jint", "java.chaquopy.JavaArrayJInt"),
   ("java.jlong", "java.chaquopy.JavaArrayJLong"),
   ("java.jfloat", "java.chaquopy.JavaArrayJFloat"),
   ("java.jdouble", "java.chaquopy.JavaArrayJDouble"),
   ("java.jchar", "java.chaquopy.JavaArrayJChar")]

/-- The tail of `translate_java_array_type` (stubgen.py lines 612-614): the
already-translated element type is wrapped either in the dedicated primitive
array type or in the generic `java.chaquopy.JavaArray`. -/
def array_type_of_element (python_element_type : TypeStr) : TypeStr :=
  match PARAMETER_TO_ARRAY_TYPE_MAP.find?
      (fun kv => kv.1 == python_element_type.name) with
  | some kv => TypeStr.mk kv.2 none
  | none => TypeStr.mk "java.chaquopy.JavaArray" (some [python_element_type])

/-- `java_type_variable_bound` (stubgen.py lines 738-753) applied to the first
declared bound (`getBounds()[0]`): a parameterized bound is narrowed to its
raw type (a `Class` whose `getName` is the raw type name). -/
def java_type_variable_bound (j_bound : JavaType) : JavaType :=
  match j_bound with
  | .parameterized raw _ => .jclass raw none
  | b => b

/-- Models `getTypeName() == "java.lang.Object"` for the wildcard upper-bound
test: only the non-array class `java.lang.Object` renders that exact type
name (parameterized type names carry `<...>`, type-variable names are plain
Java identifiers without dots, array type names end in `[]`). -/
def type_name_is_java_lang_object : JavaType → Bool
  | .jclass "java.lang.Object" none => true
  | _ => false

mutual

/-- Model of `python_type` (stubgen.py lines 631-696) on a non-`None` Java
type, with `translate_java_array_type` (lines 603-614) and
`java_array_component_type` (lines 617-628) inlined at the two array branches
(for an array class the component is always present, and a `GenericArrayType`
carries its generic component directly).  The `TypeVariable` branch inlines
the one-step evaluation of `python_type(java_type_variable_bound(...))` when
the narrowed bound is a raw `Class`, which lands in the final
`translate_type_name` branch. -/
def python_type_core (t : JavaType) (type_vars : List TypeVarStr)
    (is_argument : Bool) (is_array_param : Bool) : Except String TypeStr :=
  match t with
  | .parameterized rawTypeName actualTypeArguments =>
      match python_type_args actualTypeArguments type_vars is_argument
          is_array_param with
      | .error e => .error e
      | .ok type_args =>
          translate_type_name rawTypeName (some type_args) is_argument
            is_array_param
  | .typeVariable name bound1 _ =>
      let matching_vars := type_vars.filter (fun tv => tv.java_name == name)
      match matching_vars with
      | [tv] => .ok (TypeStr.mk tv.python_name none)
      | _ =>
          match bound1 with
          | .parameterized raw _ =>
              -- `java_type_variable_bound` narrows a parameterized bound to its
              -- raw `Class`, and `python_type` of that plain class is exactly
              -- `translate_type_name(raw)` (one unfolding, inlined here so the
              -- recursion stays on subterms).
              translate_type_name raw none false false
          | b => python_type_core b type_vars false false
  | .wildcard upper1 _ lowerBounds =>
      -- the first upper bound, unless it is `java.lang.Object` and a lower
      -- bound exists, in which case the first lower bound
      if type_name_is_java_lang_object upper1 then
        match lowerBounds with
        | lb :: _ => python_type_core lb type_vars false false
        | [] => python_type_core upper1 type_vars false false
      else python_type_core upper1 type_vars false false
  | .genericArray componentType =>
      (python_type_core componentType type_vars false true).map
        array_type_of_element
  | .jclass name componentType =>
      match componentType with
      | some c =>
          (python_type_core c type_vars false true).map array_type_of_element
      | none => translate_type_name name none is_argument is_array_param

/-- The list comprehension over `getActualTypeArguments()` in the
`ParameterizedType` branch (the first raised error propagates, as a Python
exception would). -/
def python_type_args (ts : List JavaType) (type_vars : List TypeVarStr)
    (is_argument : Bool) (is_array_param : Bool) :
    Except String (List TypeStr) :=
  match ts with
  | [] => .ok []
  | a :: rest =>
      match python_type_core a type_vars is_argument is_array_param with
      | .error e => .error e
      | .ok t =>
          match python_type_args rest type_vars is_argument is_array_param with
          | .error e => .error e
          | .ok ts2 => .ok (t :: ts2)

end

/-- Model of `python_type` including the `java_type is None` entry case
(stubgen.py lines 656-657). -/
def python_type (java_type : Option JavaType)
    (type_vars : List TypeVarStr := []) (is_argument : Bool := false)
    (is_array_param : Bool := false) : Except String TypeStr :=
  match java_type with
  | none => .ok (TypeStr.mk "None" none)
  | some t => python_type_core t type_vars is_argument is_array_param

/-! ## Functional-interface mangling (stubgen.py lines 403-499)

`mangle_callable_type_args` reads, through reflection, a class's declared
methods (with modifiers, synthetic flag and an external
`java.lang.Object.getDeclaredMethod` lookup) and its declared type
parameters.  Note that nothing in this repository calls
`mangle_callable_type_args`: the JPype-customizer hook that used it in the
ancestor project is commented out, so the translation pipeline
(`python_type`) never produces `typing.Callable` types. -/

/-- `java.lang.reflect.Modifier.PUBLIC`. -/
def Modifier_PUBLIC : Nat := 1

/-- `java.lang.reflect.Modifier.STATIC`. -/
def Modifier_STATIC : Nat := 8

/-- `java.lang.reflect.Modifier.ABSTRACT`. -/
def Modifier_ABSTRACT : Nat := 1024

/-- `is_static` (stubgen.py lines 788-792): `getModifiers() & Modifier.STATIC > 0`. -/
def is_static (modifiers : Nat) : Bool :=
  modifiers &&& Modifier_STATIC > 0

/-- `is_public` (stubgen.py lines 795-799). -/
def is_public (modifiers : Nat) : Bool :=
  modifiers &&& Modifier_PUBLIC > 0

/-- `is_abstract` (stubgen.py lines 802-806). -/
def is_abstract (modifiers : Nat) : Bool :=
  modifiers &&& Modifier_ABSTRACT > 0

/-- The reflection facts about a declared Java method read by
`invoked_method_on_functional_interface` and `mangle_callable_type_args`.
`presentInObject` records the outcome of the external
`is_method_present_in_java_lang_object` lookup (a `getDeclaredMethod` probe
against `java.lang.Object`). -/
structure JMethod where
  name : String
  modifiers : Nat
  synthetic : Bool
  presentInObject : Bool
  genericParameterTypes : List JavaType
  genericReturnType : JavaType

/-- The reflection facts about a Java class read by
`mangle_callable_type_args`: `getDeclaredMethods()` and
`getTypeParameters()` (the latter are `TypeVariable` nodes). -/
structure JClassModel where
  declaredMethods : List JMethod
  typeParameters : List JavaType

/-- `invoked_method_on_functional_interface` (stubgen.py lines 420-430): the
first declared method that is public, abstract, non-static, non-synthetic and
not a redeclaration of a `java.lang.Object` method. -/
def invoked_method_on_functional_interface (j_class : JClassModel) :
    Option JMethod :=
  j_class.declaredMethods.find? (fun j_method =>
    is_public j_method.modifiers && is_abstract j_method.modifiers &&
    !(is_static j_method.modifiers) && !j_method.synthetic &&
    !j_method.presentInObject)

/-- `resolve_functional_Interface_method_type` (stubgen.py lines 433-442):
a method type that is one of the class's own type parameters is replaced, by
positional index, with the corresponding supplied type argument (Python
`type_args[idx]` raises `IndexError` when too few type arguments were
supplied); any other type is translated by `python_type`. -/
def resolve_functional_Interface_method_type (j_type : JavaType)
    (class_type_params : List JavaType) (type_args : Option (List TypeStr)) :
    Except String TypeStr :=
  match type_args with
  | some ta =>
      if class_type_params.contains j_type then
        let idx := class_type_params.findIdx (fun x => x == j_type)
        match ta[idx]? with
        | some r => .ok r
        | none => .error "IndexError: list index out of range"
      else python_type (some j_type)
  | none => python_type (some j_type)

/-- Model of `mangle_callable_type_args` (stubgen.py lines 445-499): the
`typing.Callable` type-argument list `[[arg-types...], return-type]` for a
functional interface, or `none` when no qualifying single abstract method is
found (the unimplemented inheritance case). -/
def mangle_callable_type_args (j_class : JClassModel)
    (type_args : Option (List TypeStr)) :
    Except String (Option (List TypeStr)) :=
  match invoked_method_on_functional_interface j_class with
  | none => .ok none
  | some invoked_method => do
      let resolved_param_types ← invoked_method.genericParameterTypes.mapM
        (fun paramType => resolve_functional_Interface_method_type paramType
          j_class.typeParameters type_args)
      let resolved_return_type ← resolve_functional_Interface_method_type
        invoked_method.genericReturnType j_class.typeParameters type_args
      .ok (some [TypeStr.mk "" (some resolved_param_types),
        resolved_return_type])

/-! ## Argument-name inference (`infer_arg_name`, stubgen.py lines 756-785) -/

/-- Python `typename[:1].lower() + typename[1:]` (ASCII lowering; Java type
names are ASCII identifiers). -/
def decapitalize (s : String) : String :=
  match s.data with
  | [] => ""
  | c :: rest => String.mk (c.toLower :: rest)

/-- The base name `infer_arg_name` derives from a full reflected type name:
`typename.split("<")[0].split("$")[-1].split(".")[-1].replace("[]", "")`,
de-capitalized, with `"Array"` appended for array types. -/
def infer_arg_base (typename0 : String) : String :=
  let is_array := str_endsWith typename0 "[]"
  let typename := ((py_split '<' typename0).headD "")
  let typename := ((py_split '$' typename).getLast?.getD "")
  let typename := ((py_split '.' typename).getLast?.getD "")
  let typename := str_replace typename "[]" ""
  let typename := decapitalize typename
  if is_array then typename ++ "Array" else typename

/-- Model of `infer_arg_name`.  The input is `str(java_type.getTypeName())`
(or `none` for a `None` argument type, which yields `arg<len(prev_args)>`).
The repeat counter is `sum(bool(re.match(typename + r"\d*", prev.name)))`;
since `re.match` anchors only at the start and `\d*` matches the empty
string, that regex test succeeds exactly when `prev.name` starts with the
(metacharacter-free) derived base name. -/
def infer_arg_name (type_name : Option String) (prev_args : List ArgSig) :
    String :=
  match type_name with
  | none => "arg" ++ toString prev_args.length
  | some typename0 =>
      let typename := infer_arg_base typename0
      let prev_args_of_type :=
        (prev_args.filter (fun prev => str_startsWith prev.name typename)).length
      if prev_args_of_type = 0 then typename
      else typename ++ toString (prev_args_of_type + 1)

/-! ## Javadoc overload splitting (`split_method_overload_javadoc`,
stubgen.py lines 809-879)

The function first compiles one regular expression per signature (lines
813-858) and then scans the documentation line by line (lines 859-879).  The
compiled matcher is embedded as a Boolean predicate parameter
`sig_matches sig line`, standing for `re.fullmatch(regex(sig), line)`; the
scanning loop — the subject of the claims — is embedded exactly. -/

/-- `out_lines[signature_index].append(line)`. -/
def append_at (out_lines : List (List String)) (i : Nat) (line : String) :
    List (List String) :=
  out_lines.set i (out_lines.getD i [] ++ [line])

/-! Model of the scanning loop of `split_method_overload_javadoc`
(lines 864-878), expressed on the remaining lines.  On a line matching some
pattern (first match wins), the source sets `signature_index`, advances
`line` by 2 — past the matching line and the separator line — appends the
line now under the cursor (when one exists) to the new bucket without
pattern-checking it, and advances once more; on a non-matching line it
appends that line to the current bucket (if any) and advances. -/
mutual

/-- The scanning loop over the remaining documentation lines (see above). -/
def javadoc_scan (patterns : List (String → Bool)) :
    List String → Option Nat → List (List String) → List (List String)
  | [], _, out_lines => out_lines
  | javadoc_line :: rest, signature_index, out_lines =>
      match patterns.findIdx? (fun regex => regex javadoc_line) with
      | some i => javadoc_scan_matched patterns i rest out_lines
      | none =>
          match signature_index with
          | some i =>
              javadoc_scan patterns rest (some i)
                (append_at out_lines i javadoc_line)
          | none => javadoc_scan patterns rest none out_lines

/-- Continuation after a header match at index `i`: the source advanced the
cursor by 2 (over the header and the following separator line) and appends
the line now under the cursor — unchecked — when it exists. -/
def javadoc_scan_matched (patterns : List (String → Bool)) (i : Nat) :
    List String → List (List String) → List (List String)
  | [], out_lines => out_lines
  | _ :: rest1, out_lines =>
      match rest1 with
      | [] => out_lines
      | next :: rest2 =>
          javadoc_scan patterns rest2 (some i) (append_at out_lines i next)

end

/-- Model of `split_method_overload_javadoc`: one output string per input
signature, from the buckets filled by the scanning loop over
`javadoc.split("\n")`. -/
def split_method_overload_javadoc (signatures : List JavaFunctionSig)
    (sig_matches : JavaFunctionSig → String → Bool) (javadoc : String) :
    List String :=
  let signature_regex_list := signatures.map sig_matches
  let javadoc_lines := py_split '\n' javadoc
  (javadoc_scan signature_regex_list javadoc_lines none
    (List.replicate signatures.length [])).map
      (fun lines => str_intercalate "\n" lines)

/-! ## The per-package dependency scheduler
(`generate_stubs_for_java_package`, stubgen.py lines 224-342)

The scheduler observes a class through: its simple name
(`simple_class_name_of`), the `python_type`-translated names of its generic
supertypes (`[python_type(b).name for b in java_super_types(j_class)]`, the
only thing `dependencies_satisfied` reads), its nested member classes, and
the qualified type names / import lines its stub emission adds to
`classes_used` / `imports_output` (via `to_annotated_type`).  These are the
fields of `JClassS`.

Two restrictions of scope, stated as theorem hypotheses where needed:
* the reflective bridge is total (no `jpype.JException`), so `classes_failed`
  stays empty and the `except` arms are dead;
* no referenced qualified name contains `$`, so the member-class repair loop
  inside `generate_java_class_stub` (lines 1314-1354) finds
  `nested_classes_used` empty and exits immediately (nested-class references
  keep their `$` when recorded in `classes_used`, and
  `filter_class_names_in_package` drops them). -/

/-- A class as seen by the package scheduler (see the section comment). -/
inductive JClassS where
  | mk (name : String) (super_type_names : List String) (uses : List String)
      (imports : List String) (nested : List JClassS) : JClassS

/-- The simple class name (`simple_class_name_of`; `Outer$Inner` for nested
classes, `$`-free for top-level ones). -/
def JClassS.name : JClassS → String
  | .mk n _ _ _ _ => n

/-- The `python_type`-translated names of the class's generic supertypes. -/
def JClassS.super_type_names : JClassS → List String
  | .mk _ s _ _ _ => s

/-- The qualified type names this class's stub records in `classes_used`. -/
def JClassS.uses : JClassS → List String
  | .mk _ _ u _ _ => u

/-- The import lines this class's stub records in `imports_output`. -/
def JClassS.imports : JClassS → List String
  | .mk _ _ _ i _ => i

/-- The nested member classes (`vars(j_class)` filtered by `is_java_class`,
in sorted attribute order). -/
def JClassS.nested : JClassS → List JClassS
  | .mk _ _ _ _ n => n

mutual

/-- Decidable structural equality for `JClassS` (JPype type objects are
canonical per class, so object equality coincides with equality of the
reflected data). -/
def JClassS.decEq : (a b : JClassS) → Decidable (a = b)
  | .mk n1 s1 u1 i1 m1, .mk n2 s2 u2 i2 m2 =>
    match String.decEq n1 n2, instDecidableEqList s1 s2, instDecidableEqList u1 u2,
        instDecidableEqList i1 i2, JClassS.decEqList m1 m2 with
    | isTrue h1, isTrue h2, isTrue h3, isTrue h4, isTrue h5 =>
        isTrue (by rw [h1, h2, h3, h4, h5])
    | isFalse h1, _, _, _, _ => isFalse (fun h => by cases h; exact h1 rfl)
    | _, isFalse h2, _, _, _ => isFalse (fun h => by cases h; exact h2 rfl)
    | _, _, isFalse h3, _, _ => isFalse (fun h => by cases h; exact h3 rfl)
    | _, _, _, isFalse h4, _ => isFalse (fun h => by cases h; exact h4 rfl)
    | _, _, _, _, isFalse h5 => isFalse (fun h => by cases h; exact h5 rfl)

/-- Decidable equality for `JClassS` lists. -/
def JClassS.decEqList : (a b : List JClassS) → Decidable (a = b)
  | [], [] => isTrue rfl
  | [], _ :: _ => isFalse (by simp)
  | _ :: _, [] => isFalse (by simp)
  | h1 :: t1, h2 :: t2 =>
    match JClassS.decEq h1 h2, JClassS.decEqList t1 t2 with
    | isTrue e1, isTrue e2 => isTrue (by rw [e1, e2])
    | isFalse e1, _ => isFalse (fun h => by cases h; exact e1 rfl)
    | _, isFalse e2 => isFalse (fun h => by cases h; exact e2 rfl)

end

instance : DecidableEq JClassS := JClassS.decEq

/-- Python `s[:s.rindex(".")]` as used on qualified type names (`""` when no
dot is present; the source would raise `ValueError` there, and all names this
is applied to are dotted). -/
def module_of (s : String) : String :=
  str_intercalate "." ((py_split '.' s).dropLast)

/-- The final dot-separated segment of a qualified name
(`s[s.rindex(".") + 1:]`, and the `local_name` of `str.rpartition(".")`). -/
def local_of (s : String) : String :=
  ((py_split '.' s).getLast?).getD ""

/-- Python `set.add`: append the element unless already present. -/
def set_add (s : List String) (x : String) : List String :=
  if x ∈ s then s else s ++ [x]

/-- Python `set |= ...` / repeated `set.add` over a list. -/
def set_union (s : List String) (xs : List String) : List String :=
  xs.foldl set_add s

mutual

/-- Model of `dependencies_satisfied` (stubgen.py lines 362-388): every
supertype living in the same package must already be in `done`, recursively
also for nested member classes. -/
def dependencies_satisfied (package_name : String) :
    JClassS → List String → Bool
  | .mk _ super_type_names _ _ nested, done =>
      (super_type_names.all (fun super_type_name =>
        !(module_of super_type_name == package_name) ||
          done.contains (local_of super_type_name))) &&
      dependencies_satisfied_list package_name nested done

/-- The `for member in vars(j_class).values()` recursion of
`dependencies_satisfied` over the nested member classes. -/
def dependencies_satisfied_list (package_name : String) :
    List JClassS → List String → Bool
  | [], _ => true
  | member :: rest, done =>
      dependencies_satisfied package_name member done &&
      dependencies_satisfied_list package_name rest done

end

/-! Model of `generate_java_class_stub` (stubgen.py lines 1205-1417)
restricted to the scheduler-visible effects, returning the updated
`(classes_done, classes_used, imports_output)`:
the class's own referenced names and import lines are recorded; each nested
member class is generated against a fresh copy `nested_done` of the outer
`classes_done`, the results are accumulated into `classes_done_nested`
(shared `classes_used`/`imports_output` are threaded through); finally
`classes_done |= classes_done_nested` and the class's own simple name is
added. -/
mutual

/-- Scheduler-visible effects of emitting one class (see above). -/
def gen_class : JClassS → List String → List String → List String →
    List String × List String × List String
  | .mk name _ uses imports nested, classes_done, classes_used, imports_output =>
      let acc := gen_class_nested nested classes_done
        ([], set_union classes_used uses, imports_output ++ imports)
      (set_add (set_union classes_done acc.1) name, acc.2.1, acc.2.2)

/-- The nested-class loop of `generate_java_class_stub` (lines 1295-1312):
each member is generated against a fresh copy of the outer `classes_done`;
`classes_done_nested` (the first accumulator component) collects the results
while `classes_used`/`imports_output` are threaded through. -/
def gen_class_nested (members : List JClassS) (outer_done : List String)
    (acc : List String × List String × List String) :
    List String × List String × List String :=
  match members with
  | [] => acc
  | member :: rest =>
      let (classes_done_nested, used_acc, imports_acc) := acc
      let (nested_done, used_acc, imports_acc) :=
        gen_class member outer_done used_acc imports_acc
      gen_class_nested rest outer_done
        (set_union classes_done_nested nested_done, used_acc, imports_acc)

end

/-- A Java package as seen by the scheduler: its qualified name, the directly
enumerable classes (`package_classes`, in `dir()` order) and the
`getattr(package, simpleName)` attribute table used by the repair phase. -/
structure JPackageS where
  name : String
  classes : List JClassS
  attrs : List (String × JClassS)

/-- `getattr(package, n, None)` restricted to class-valued attributes. -/
def pkg_lookup (pkg : JPackageS) (n : String) : Option JClassS :=
  (pkg.attrs.find? (fun p => p.1 == n)).map (fun p => p.2)

/-- The mutable state of the scheduling loop.  `emitted` models
`class_output` at the granularity of appended top-level class blocks (one
entry per emitted class / placeholder, in textual order). -/
structure SchedState where
  java_classes : List JClassS
  classes_done : List String
  classes_used : List String
  emitted : List String
  import_lines : List String
deriving DecidableEq

/-- `filter_class_names_in_package` (stubgen.py lines 191-198): the local
names of the given qualified names that are direct, `$`-free members of the
package (the source returns a set; deduplicated here). -/
def filter_class_names_in_package (package_name : String)
    (types : List String) : List String :=
  py_dedup ((types.filter (fun typ => module_of typ == package_name &&
      !(str_contains_char (local_of typ) '$'))).map local_of)

/-- The per-pass selection (stubgen.py lines 245-251): the
dependency-satisfied subset, or — fallback — the entire remaining list, in
sorted simple-name order. -/
def satisfied_classes (pkg : JPackageS) (s : SchedState) : List JClassS :=
  s.java_classes.filter
    (fun c => dependencies_satisfied pkg.name c s.classes_done)

/-- The sorted batch one pass generates (`sorted(java_classes_to_generate,
key=lambda c: c.__name__)` after the fallback substitution). -/
def pass_batch (pkg : JPackageS) (s : SchedState) : List JClassS :=
  let java_classes_to_generate := satisfied_classes pkg s
  let java_classes_to_generate :=
    if java_classes_to_generate.isEmpty then s.java_classes
    else java_classes_to_generate
  java_classes_to_generate.insertionSort (fun a b => a.name.data ≤ b.name.data)

/-- One iteration of the generation loop (stubgen.py lines 251-268): emit
one batch class, record its effects, and remove it from the work list. -/
def emit_step (st : SchedState) (c : JClassS) : SchedState :=
  let g := gen_class c st.classes_done st.classes_used st.import_lines
  { st with
    classes_done := g.1
    classes_used := g.2.1
    import_lines := g.2.2
    emitted := st.emitted ++ [c.name]
    java_classes := st.java_classes.erase c }

/-- The generation half of one pass: emit each batch class in order. -/
def emit_batch (batch : List JClassS) (s : SchedState) : SchedState :=
  batch.foldl emit_step s

/-- One step of the repair loop of `generate_stubs_for_java_package`
(stubgen.py lines 277-319) on one missing name: a resolvable class is queued
(unless already queued), an unresolvable one is emitted as an empty
placeholder stub and marked done. -/
def repair_step (pkg : JPackageS) (st : SchedState)
    (missing_private_class : String) : SchedState :=
  match pkg_lookup pkg missing_private_class with
  | some cls =>
      if cls ∈ st.java_classes then st
      else { st with java_classes := st.java_classes ++ [cls] }
  | none =>
      { st with
        classes_done := set_add st.classes_done missing_private_class
        emitted := st.emitted ++ [missing_private_class] }

/-- The repair half of one pass (stubgen.py lines 269-319): every referenced,
not-yet-generated direct member of the package is fetched by attribute lookup
and queued, or — failing that — emitted as an empty placeholder stub
(`generate_empty_class_stub`) and marked done.  (`classes_failed` is empty
under the total-reflection modelling, so the `not in classes_failed` guard
always passes.) -/
def repair_missing (pkg : JPackageS) (s : SchedState) : SchedState :=
  let missing_private_classes :=
    (filter_class_names_in_package pkg.name s.classes_used).filter
      (fun n => n ∉ s.classes_done)
  (py_sorted missing_private_classes).foldl (repair_step pkg) s

/-- One iteration of the `while java_classes:` loop. -/
def sched_pass (pkg : JPackageS) (s : SchedState) : SchedState :=
  repair_missing pkg (emit_batch (pass_batch pkg s) s)

/-- The `while java_classes:` loop, fuel-indexed (each pass strictly shrinks
the set of not-yet-done attribute names of a well-formed package, so
`pkg.attrs.length + 1` passes always suffice; see the scheduler theorems). -/
def sched_loop (pkg : JPackageS) : Nat → SchedState → SchedState
  | 0, s => s
  | fuel + 1, s =>
      if s.java_classes.isEmpty then s
      else sched_loop pkg fuel (sched_pass pkg s)

/-- The initial scheduler state: the package's classes sorted by name
(stubgen.py line 232), all traversal sets empty. -/
def init_state (pkg : JPackageS) : SchedState :=
  { java_classes := pkg.classes.insertionSort (fun a b => a.name.data ≤ b.name.data)
    classes_done := []
    classes_used := []
    emitted := []
    import_lines := [] }

/-- Fuel that always suffices for `sched_loop` on a well-formed package. -/
def enough_fuel (pkg : JPackageS) : Nat := pkg.attrs.length + 1

/-- The scheduler termination measure: the number of package attribute names
not yet in `classes_done`. -/
def remaining_count (pkg : JPackageS) (s : SchedState) : Nat :=
  ((pkg.attrs.map Prod.fst).filter
    (fun n => !(s.classes_done.contains n))).length

/-- Totality of the string order used by `py_sorted`. -/
instance : IsTotal String (fun a b => a.data ≤ b.data) :=
  ⟨fun a b => le_total a.data b.data⟩

/-- Transitivity of the string order used by `py_sorted`. -/
instance : IsTrans String (fun a b => a.data ≤ b.data) :=
  ⟨fun _ _ _ h1 h2 => le_trans h1 h2⟩

/-- Totality of the simple-name order used on class batches. -/
instance : IsTotal JClassS (fun a b => a.name.data ≤ b.name.data) :=
  ⟨fun a b => le_total a.name.data b.name.data⟩

/-- Transitivity of the simple-name order used on class batches. -/
instance : IsTrans JClassS (fun a b => a.name.data ≤ b.name.data) :=
  ⟨fun _ _ _ h1 h2 => le_trans h1 h2⟩

/-! ## The output writer (stubgen.py lines 133-189 and 321-342) -/

/-- The two fixed import blocks `add_chaquopy_bindings_to_java_package`
appends for the `java` package (chaquopy_bindings.py lines 8-32; constant
templates). -/
def chaquopy_binding_import_lines : List String :=
  ["from java.chaquopy import (\n    cast,\n    detach,\n    jarray,\n    jclass,\n    set_import_enabled,\n    dynamic_proxy,\n    static_proxy,\n    constructor,\n    method,\n    Override,\n)",
   "from java.primitive import (\n    jvoid,\n    jboolean,\n    jbyte,\n    jshort,\n    jint,\n    jlong,\n    jfloat,\n    jdouble,\n    jchar,\n)"]

/-- The fixed `__all__` block appended to the `java` package's class output
(chaquopy_bindings.py lines 33-54; constant template). -/
def chaquopy_all_block : String :=
  "__all__ = [\n    \"cast\",\n    \"detach\",\n    \"jarray\",\n    \"jclass\",\n    \"set_import_enabled\",\n    \"dynamic_proxy\",\n    \"static_proxy\",\n    \"constructor\",\n    \"method\",\n    \"Override\",\n    \"jvoid\",\n    \"jboolean\",\n    \"jbyte\",\n    \"jshort\",\n    \"jint\",\n    \"jlong\",\n    \"jfloat\",\n    \"jdouble\",\n    \"jchar\",\n]"

/-- The de-duplicated, sorted import section of one package file
(stubgen.py line 334: `sorted(set(import_output))`), after the subpackage
lines of imports (lines 321-322) and for `java` the fixed binding imports
(lines 327-330; `customizers_used` is always empty in this repository — the
only code adding to it is commented out, so `provide_customizer_stubs` never
contributes). -/
def package_import_section (pkg : JPackageS) (subpackages : List String)
    (fuel : Nat) : List String :=
  let s := sched_loop pkg fuel (init_state pkg)
  let import_output := s.import_lines ++
    subpackages.map (fun sub => "import " ++ pkg.name ++ "." ++ sub)
  let import_output :=
    if pkg.name == "java" then import_output ++ chaquopy_binding_import_lines
    else import_output
  py_sorted (py_dedup import_output)

/-- The ordered class-block section of one package file (block granularity;
for `java` the fixed `__all__` template is appended, chaquopy_bindings.py
line 33). -/
def package_class_section (pkg : JPackageS) (fuel : Nat) : List String :=
  let s := sched_loop pkg fuel (init_state pkg)
  if pkg.name == "java" then s.emitted ++ [chaquopy_all_block] else s.emitted

/-- The full line/block list written to one package's `__init__.pyi`
(stubgen.py lines 332-342): sorted unique imports, two blank lines, then the
class blocks in emission order. -/
def package_output_lines (pkg : JPackageS) (subpackages : List String)
    (fuel : Nat) : List String :=
  package_import_section pkg subpackages fuel ++ ["", ""] ++
    package_class_section pkg fuel

/-- The file content (`file.write(f"{line}\n")` per line/block). -/
def package_file_content (pkg : JPackageS) (subpackages : List String)
    (fuel : Nat) : String :=
  String.join ((package_output_lines pkg subpackages fuel).map
    (fun line => line ++ "\n"))

/-- The stub-file path for a package name (stubgen.py lines 159-179): one
directory per segment, the outermost suffixed `-stubs`, file
`__init__.pyi`. -/
def stubfile_path (pkg_name : String) : String :=
  match py_split '.' pkg_name with
  | [] => "__init__.pyi"
  | first :: rest =>
      str_intercalate "/" ((first ++ "-stubs") :: rest) ++ "/__init__.pyi"

/-- The (parent, next-segment) pairs contributed by one package name to the
`subpackages` map (stubgen.py lines 159-177). -/
def prefix_pairs (pkg_name : String) : List (String × String) :=
  let parts := py_split '.' pkg_name
  (List.range parts.length).filterMap (fun i =>
    if i = 0 then none
    else some (str_intercalate "." (parts.take i), parts.getD i ""))

/-- `sorted(subpackages[p])`: the direct subpackage names of `p` collected
from all package names. -/
def direct_subpackages (all_names : List String) (p : String) : List String :=
  py_sorted (py_dedup ((all_names.flatMap prefix_pairs).filterMap
    (fun q => if q.1 == p then some q.2 else none)))

/-- Model of `generate_java_stubs` (stubgen.py lines 133-189) as the file
tree it writes: one `(path, content)` entry per collected package (parents
of collected packages receive directories but no files).  The walker's
collected package list is the input; the side file `chaquopy.pyi`
(a fixed constant template, spec §1 out of scope) is not modelled. -/
def generate_java_stubs_tree (packages : List JPackageS) :
    List (String × String) :=
  let all_names := packages.map (fun p => p.name)
  packages.map (fun pkg =>
    (stubfile_path pkg.name,
     package_file_content pkg (direct_subpackages all_names pkg.name)
       (enough_fuel pkg)))

/-! ## Auxiliary notions for the scheduler theorems -/

mutual

/-- All simple names `gen_class` adds to `classes_done` for one class: its
own name followed by the names of all (transitively) nested member
classes. -/
def all_class_names : JClassS → List String
  | .mk n _ _ _ nested => n :: all_class_names_list nested

/-- `all_class_names` over a member-class list. -/
def all_class_names_list : List JClassS → List String
  | [] => []
  | m :: rest => all_class_names m ++ all_class_names_list rest

end

/-- The names of all (transitively) nested member classes of a class. -/
def nested_class_names (c : JClassS) : List String :=
  all_class_names_list c.nested

/-- Reflective well-formedness of a package, as the JVM/JPype bridge
guarantees it: attribute lookup returns the class of that name; attribute
names are unique (`dir` entries) and `$`-free (top-level classes); the
enumerated classes are reachable by lookup under their own distinct names;
nested classes carry `$` in their simple names (`Outer$Inner`); and no
recorded referenced name contains `$` (the scope restriction under which the
member-class repair loop is a no-op, see the scheduler section comment). -/
structure PkgWF (pkg : JPackageS) : Prop where
  attr_names : ∀ p ∈ pkg.attrs, (p.2).name = p.1
  attr_no_dollar : ∀ p ∈ pkg.attrs, str_contains_char p.1 '$' = false
  attr_nested_dollar : ∀ p ∈ pkg.attrs,
    ∀ x ∈ nested_class_names p.2, str_contains_char x '$' = true
  classes_lookup : ∀ c ∈ pkg.classes, pkg_lookup pkg c.name = some c
  classes_names_nodup : (pkg.classes.map JClassS.name).Nodup

/-- The loop invariant of the scheduling loop: work-list classes are the
lookup values of their (distinct, not-yet-done) names; emitted blocks are
distinct, done, and cover every `$`-free done name. -/
structure StateWF (pkg : JPackageS) (s : SchedState) : Prop where
  list_lookup : ∀ c ∈ s.java_classes, pkg_lookup pkg c.name = some c
  list_names_nodup : (s.java_classes.map JClassS.name).Nodup
  list_not_done : ∀ c ∈ s.java_classes, c.name ∉ s.classes_done
  emitted_nodup : s.emitted.Nodup
  emitted_done : ∀ x ∈ s.emitted, x ∈ s.classes_done
  done_emitted : ∀ x ∈ s.classes_done,
    str_contains_char x '$' = false → x ∈ s.emitted

/-- Forward-reference freedom over the emitted block list: every emitted
class block's in-package, `$`-free supertype locals appear among the blocks
strictly before it.  (Placeholder blocks have no reflective class —
`pkg_lookup` returns `none` — and impose no condition.) -/
def forward_order_inv (pkg : JPackageS) (s : SchedState) : Prop :=
  ∀ (k : Nat) (h : k < s.emitted.length) (c : JClassS),
    pkg_lookup pkg (s.emitted.get ⟨k, h⟩) = some c →
    ∀ stn ∈ c.super_type_names, module_of stn = pkg.name →
      str_contains_char (local_of stn) '$' = false →
      local_of stn ∈ s.emitted.take k

/-- A run of the scheduling loop in which every pass finds at least one
dependency-satisfied class, i.e. the fallback branch
(`if not java_classes_to_generate`) is never taken. -/
def no_fallback_run (pkg : JPackageS) : Nat → SchedState → Bool
  | 0, _ => true
  | fuel + 1, s =>
      if s.java_classes.isEmpty then true
      else !(satisfied_classes pkg s).isEmpty &&
        no_fallback_run pkg fuel (sched_pass pkg s)

/-! ## Concrete example inputs used by the theorems -/

/-- The type argument `X` of the functional-interface example. -/
def exX : JavaType := .jclass "com.example.X" none

/-- The type argument `Y` of the functional-interface example. -/
def exY : JavaType := .jclass "com.example.Y" none

/-- The type argument `Z` of the functional-interface example. -/
def exZ : JavaType := .jclass "com.example.Z" none

/-- An interface class declaring type parameters `[T1, T2, R]` (with the
given first bounds) whose single declared method is `R apply(T1, T2)` with
the given modifier bits: the shape named by the functional-interface
claim. -/
def biFunctionShape (mods : Nat) (b1 b2 br : JavaType) : JClassModel :=
  { declaredMethods :=
      [{ name := "apply", modifiers := mods, synthetic := false,
         presentInObject := false,
         genericParameterTypes :=
           [.typeVariable "T1" b1 [], .typeVariable "T2" b2 []],
         genericReturnType := .typeVariable "R" br [] }],
    typeParameters :=
      [.typeVariable "T1" b1 [], .typeVariable "T2" b2 [],
       .typeVariable "R" br []] }

/-- The concrete functional interface `com.example.BiFunction<T1, T2, R>`
with public abstract `R apply(T1, T2)` (modifiers `PUBLIC | ABSTRACT`). -/
def biFunctionExample : JClassModel :=
  biFunctionShape (Modifier_PUBLIC + Modifier_ABSTRACT)
    (.jclass "java.lang.Object" none) (.jclass "java.lang.Object" none)
    (.jclass "java.lang.Object" none)

/-- An overload signature named `a` (only the name matters for the javadoc
scanning example). -/
def sigExampleA : JavaFunctionSig :=
  { name := "a", static := false, args := [],
    ret_type := TypeStr.mk "None" none, type_vars := [] }

/-- An overload signature named `b`. -/
def sigExampleB : JavaFunctionSig :=
  { name := "b", static := false, args := [],
    ret_type := TypeStr.mk "None" none, type_vars := [] }

/-- A concrete stand-in for the compiled signature regexes: signature `a`'s
pattern fully matches exactly the line `"H1"` and signature `b`'s exactly
`"H2"`. -/
def exampleMatcher (sig : JavaFunctionSig) (line : String) : Bool :=
  (sig.name == "a" && line == "H1") || (sig.name == "b" && line == "H2")

/-- Synthetic class `A extends B` (in package `p`). -/
def classA : JClassS := .mk "A" ["p.B"] [] [] []

/-- Synthetic class `B extends A` (in package `p`). -/
def classB : JClassS := .mk "B" ["p.A"] [] [] []

/-- The cyclic package `p` containing `A extends B` and `B extends A`. -/
def pkgCycle : JPackageS :=
  { name := "p", classes := [classA, classB],
    attrs := [("A", classA), ("B", classB)] }

/-- Synthetic class `C extends D` (in package `p2`), referencing `p2.D`. -/
def classC : JClassS := .mk "C" ["p2.D"] ["p2.D"] [] []

/-- Synthetic class `D` (in package `p2`) extending only `java.lang.Object`. -/
def classD : JClassS := .mk "D" ["java.lang.Object"] ["java.lang.Object"] [] []

/-- The acyclic package `p2` containing `C extends D` and `D`. -/
def pkgAcyclic : JPackageS :=
  { name := "p2", classes := [classC, classD],
    attrs := [("C", classC), ("D", classD)] }

/-! ## Theorems -/

/-- `str_startsWith` is reflexive (every string is a prefix of itself). -/
theorem str_startsWith_self (s : String) : str_startsWith s s = true := by
  simpa [str_startsWith] using List.isPrefixOf_iff_prefix.mpr (List.prefix_refl _)

/-- A reserved word is never dunder-shaped (no Python keyword starts with an
underscore). -/
theorem reserved_word_not_dunder (s : String)
    (h : is_reserved_word s = true) : dunder_shaped s = false := by
  have hmem : s ∈ PYTHON_KEYWORDS ∨ s ∈ EXTRA_RESERVED_WORDS := by
    have := h
    unfold is_reserved_word at this
    rcases Bool.or_eq_true_iff.mp this with h' | h'
    · exact Or.inl (by simpa using h')
    · exact Or.inr (by simpa using h')
  rcases hmem with h' | h' <;> fin_cases h' <;> decide

/-- C4: for every row of the 9-entry primitive table, both the primitive
name and the boxed name translate, in argument position (and non-array
context), to the 3-alternative union of the plain Python equivalent, the
primitive-wrapper type and the Java boxed type, and, in non-argument
position, to the plain Python equivalent only. -/
theorem translate_type_name_primitive_table (p : Primitive)
    (hp : p ∈ PRIMITIVES) :
    (translate_type_name p.java_primitive none true false =
        .ok (TypeStr.mk "typing.Union" (some [TypeStr.mk p.python_type none,
          TypeStr.mk p.python_primitive none, TypeStr.mk p.java_object none]))
      ∧ translate_type_name p.java_object none true false =
        .ok (TypeStr.mk "typing.Union" (some [TypeStr.mk p.python_type none,
          TypeStr.mk p.python_primitive none, TypeStr.mk p.java_object none])))
  ∧ (translate_type_name p.java_primitive none false false =
        .ok (TypeStr.mk p.python_type none)
      ∧ translate_type_name p.java_object none false false =
        .ok (TypeStr.mk p.python_type none)) := by
  fin_cases hp <;> exact ⟨⟨rfl, rfl⟩, rfl, rfl⟩

/-- Witness for C4 at the `int` row: `int` in argument position widens to
`typing.Union[int, java.jint, java.lang.Integer]`, in return position to
plain `int`. -/
theorem translate_type_name_primitive_table_witness :
    translate_type_name "int" none true false =
      .ok (TypeStr.mk "typing.Union" (some [TypeStr.mk "int" none,
        TypeStr.mk "java.jint" none, TypeStr.mk "java.lang.Integer" none]))
  ∧ translate_type_name "int" none false false =
      .ok (TypeStr.mk "int" none) :=
  ⟨(translate_type_name_primitive_table
      ⟨"int", "java.lang.Integer", "java.jint", "int"⟩ (by decide)).1.1,
   (translate_type_name_primitive_table
      ⟨"int", "java.lang.Integer", "java.jint", "int"⟩ (by decide)).2.1⟩

/-- C5: a dunder-shaped member name makes `pysafe` return `none` and drops
the field/method entirely; a reserved word is emitted with a single `_`
suffix; all other names pass through unchanged. -/
theorem pysafe_member_policy (s annotation args ret : String) :
    (dunder_shaped s = true →
      pysafe s = none ∧ generate_java_field_stub_line s annotation = none ∧
      generate_java_method_def_line s args ret = none)
  ∧ (is_reserved_word s = true →
      pysafe s = some (s ++ "_") ∧
      generate_java_field_stub_line s annotation =
        some (s ++ "_" ++ ": " ++ annotation ++ " = ...") ∧
      generate_java_method_def_line s args ret =
        some ("def " ++ (s ++ "_") ++ "(" ++ args ++ ") -> " ++ ret ++ ": ..."))
  ∧ (dunder_shaped s = false → is_reserved_word s = false →
      pysafe s = some s) := by
  refine ⟨fun hd => ?_, fun hr => ?_, fun hd hr => ?_⟩
  · simp [pysafe, hd, generate_java_field_stub_line,
      generate_java_method_def_line]
  · have hd := reserved_word_not_dunder s hr
    simp [pysafe, hd, hr, generate_java_field_stub_line,
      generate_java_method_def_line, String.append_assoc]
  · simp [pysafe, hd, hr]

/-- Witness for C5: `__eq__` is dropped, the keyword `class` becomes
`class_`, and `value` passes through. -/
theorem pysafe_member_policy_witness :
    (pysafe "__eq__" = none ∧
      generate_java_field_stub_line "__eq__" "int" = none ∧
      generate_java_method_def_line "__eq__" "self" "bool" = none)
  ∧ pysafe "class" = some "class_"
  ∧ pysafe "value" = some "value" :=
  ⟨(pysafe_member_policy "__eq__" "int" "self" "bool").1 (by decide),
   ((pysafe_member_policy "class" "int" "self" "bool").2.1 (by decide)).1,
   (pysafe_member_policy "value" "int" "self" "bool").2.2 (by decide)
     (by decide)⟩

/-- C6 counterexample: with `prev_args` built left to right for parameter
types `Foo, FooBar, Foo`, the third parameter is the second occurrence of
the name `foo`, so the claim predicts `foo2`; the code's prefix-matching
counter (`re.match(typename + r"\d*", ...)`) also counts `fooBar` and
produces `foo3`. -/
theorem infer_arg_name_counterexample :
    infer_arg_name (some "com.example.Foo") [] = "foo"
  ∧ infer_arg_name (some "com.example.FooBar")
      [{ name := "foo" }] = "fooBar"
  ∧ infer_arg_name (some "com.example.Foo")
      [{ name := "foo" }, { name := "fooBar" }] = "foo3"
  ∧ ("foo3" : String) ≠ "foo2" := by
  refine ⟨by decide, by decide, by decide, by decide⟩

/-- C6 (amended): the counter counts the previous argument names that start
with the derived base name; when no previous name extends the base strictly
(prefix-free signatures), this is exactly the number of previous occurrences
of the base, so the first occurrence gets no suffix and the k-th repeat gets
`str(k)`. -/
theorem infer_arg_name_occurrence_counter (tn : String)
    (prev_args : List ArgSig) (k : Nat)
    (hfree : ∀ a ∈ prev_args,
      str_startsWith a.name (infer_arg_base tn) = true →
      a.name = infer_arg_base tn)
    (hk : (prev_args.filter
      (fun a => a.name = infer_arg_base tn)).length = k) :
    infer_arg_name (some tn) prev_args =
      if k = 0 then infer_arg_base tn
      else infer_arg_base tn ++ toString (k + 1) := by
  have hcongr : prev_args.filter
      (fun a => str_startsWith a.name (infer_arg_base tn)) =
      prev_args.filter (fun a => a.name = infer_arg_base tn) := by
    apply List.filter_congr
    intro a ha
    by_cases hs : str_startsWith a.name (infer_arg_base tn) = true
    · simp [hs, hfree a ha hs, str_startsWith_self]
    · have hne : a.name ≠ infer_arg_base tn := by
        intro he
        exact hs (by rw [he]; exact str_startsWith_self _)
      simp [Bool.eq_false_iff.mpr hs, hne]
  simp only [infer_arg_name]
  rw [hcongr, hk]

/-- Witness for C6 (amended): two parameters of type `Foo` yield `foo` and
`foo2` in declaration order. -/
theorem infer_arg_name_occurrence_counter_witness :
    infer_arg_name (some "com.example.Foo") [] = "foo"
  ∧ infer_arg_name (some "com.example.Foo") [{ name := "foo" }] = "foo2" := by
  constructor
  · have := infer_arg_name_occurrence_counter "com.example.Foo" [] 0
      (by decide) (by decide)
    simpa using this
  · have := infer_arg_name_occurrence_counter "com.example.Foo"
      [{ name := "foo" }] 1 (by decide) (by decide)
    simpa using this

/-- C7 counterexample: with signature `a` matching `"H1"` and signature `b`
matching `"H2"`, the documentation `H1, sep, H2, body` puts `H2` and `body`
into signature `a`'s bucket: the line `H2`, although it fully matches exactly
signature `b`'s pattern, is consumed unchecked as the post-separator line of
the `H1` header and does not switch the current overload (the claim predicts
buckets `["", ""]`). -/
theorem javadoc_scan_counterexample :
    exampleMatcher sigExampleB "H2" = true
  ∧ exampleMatcher sigExampleA "H2" = false
  ∧ split_method_overload_javadoc [sigExampleA, sigExampleB] exampleMatcher
      "H1\nsep\nH2\nbody" = ["H2\nbody", ""]
  ∧ split_method_overload_javadoc [sigExampleA, sigExampleB] exampleMatcher
      "H1\nsep\nH2\nbody" ≠ ["", ""] := by
  exact ⟨by decide, by decide, by decide, by decide⟩

/-- C7 (amended): a pattern-checked line that matches some signature's
pattern (first match wins) switches the current overload to that signature;
the immediately following line is skipped as a separator and the line after
it — when present — is attributed to the new bucket without being
pattern-checked; from the next line on, a non-matching checked line is
appended to the current bucket (or dropped when no overload is current
yet). -/
theorem javadoc_scan_step_behavior (patterns : List (String → Bool))
    (header sep x l : String) (rest : List String) (cur : Option Nat)
    (buckets : List (List String)) (i : Nat) :
    (patterns.findIdx? (fun regex => regex header) = some i →
      javadoc_scan patterns (header :: sep :: x :: rest) cur buckets =
        javadoc_scan patterns rest (some i) (append_at buckets i x))
  ∧ (patterns.findIdx? (fun regex => regex l) = none →
      javadoc_scan patterns (l :: rest) (some i) buckets =
        javadoc_scan patterns rest (some i) (append_at buckets i l))
  ∧ (patterns.findIdx? (fun regex => regex l) = none →
      javadoc_scan patterns (l :: rest) none buckets =
        javadoc_scan patterns rest none buckets) := by
  refine ⟨fun h => ?_, fun h => ?_, fun h => ?_⟩ <;>
    (conv_lhs => rw [javadoc_scan.eq_def]) <;> simp only [h] <;> rfl

/-- Witness for C7 (amended), at a one-signature pattern list: the header
line switches to bucket 0, its separator is skipped, and the following line
is attributed to bucket 0. -/
theorem javadoc_scan_step_behavior_witness :
    javadoc_scan [fun l => l == "H1"] ["H1", "sep", "x"] none [[]] =
      javadoc_scan [fun l => l == "H1"] [] (some 0) (append_at [[]] 0 "x") :=
  (javadoc_scan_step_behavior [fun l => l == "H1"] "H1" "sep" "x" "x" []
    none [[]] 0).1 (by decide)

/-- `append_at` preserves the number of buckets. -/
theorem append_at_length (buckets : List (List String)) (i : Nat)
    (line : String) : (append_at buckets i line).length = buckets.length := by
  simp [append_at]

mutual

/-- The scanning loop preserves the number of buckets. -/
theorem javadoc_scan_length (patterns : List (String → Bool)) :
    ∀ (lines : List String) (cur : Option Nat)
      (buckets : List (List String)),
      (javadoc_scan patterns lines cur buckets).length = buckets.length
  | [], _, _ => rfl
  | javadoc_line :: rest, cur, buckets => by
      rw [javadoc_scan.eq_def]
      cases hfi : patterns.findIdx? (fun regex => regex javadoc_line) with
      | some i =>
          simp only [hfi]
          exact javadoc_scan_matched_length patterns i rest buckets
      | none =>
          simp only [hfi]
          cases cur with
          | some i =>
              rw [javadoc_scan_length patterns rest (some i) _,
                append_at_length]
          | none => exact javadoc_scan_length patterns rest none buckets

/-- The post-header continuation preserves the number of buckets. -/
theorem javadoc_scan_matched_length (patterns : List (String → Bool))
    (i : Nat) :
    ∀ (rest : List String) (buckets : List (List String)),
      (javadoc_scan_matched patterns i rest buckets).length = buckets.length
  | [], _ => rfl
  | _ :: rest1, buckets => by
      cases rest1 with
      | nil => rfl
      | cons next rest2 =>
          show (javadoc_scan patterns rest2 (some i)
            (append_at buckets i next)).length = buckets.length
          rw [javadoc_scan_length patterns rest2 (some i) _, append_at_length]

end

/-- When no line matches any pattern and no overload is current, the buckets
are never touched. -/
theorem javadoc_scan_no_match (patterns : List (String → Bool))
    (lines : List String)
    (h : ∀ l ∈ lines, patterns.findIdx? (fun regex => regex l) = none)
    (buckets : List (List String)) :
    javadoc_scan patterns lines none buckets = buckets := by
  induction lines with
  | nil => rfl
  | cons l rest ih =>
      have h0 := h l (by simp)
      rw [javadoc_scan.eq_def]
      simp only [h0]
      exact ih (fun x hx => h x (by simp [hx]))

/-- C8: the splitter is total and returns exactly one string per input
signature; when no documentation line matches any signature's pattern, every
bucket is the empty string (unmatched text is silently dropped). -/
theorem split_method_overload_javadoc_total (signatures : List JavaFunctionSig)
    (sig_matches : JavaFunctionSig → String → Bool) (javadoc : String) :
    (split_method_overload_javadoc signatures sig_matches javadoc).length =
      signatures.length
  ∧ ((∀ line ∈ py_split '\n' javadoc, ∀ sig ∈ signatures,
        sig_matches sig line = false) →
      split_method_overload_javadoc signatures sig_matches javadoc =
        List.replicate signatures.length "") := by
  constructor
  · simp [split_method_overload_javadoc, javadoc_scan_length]
  · intro h
    have hnone : ∀ l ∈ py_split '\n' javadoc,
        (signatures.map sig_matches).findIdx? (fun regex => regex l) = none := by
      intro l hl
      rw [List.findIdx?_eq_none_iff]
      intro p hp
      rcases List.mem_map.mp hp with ⟨sig, hsig, rfl⟩
      exact h l hl sig hsig
    simp [split_method_overload_javadoc,
      javadoc_scan_no_match _ _ hnone, str_intercalate]

/-- Witness for C8: one signature against fully unmatched documentation
yields exactly one bucket, and it is empty. -/
theorem split_method_overload_javadoc_total_witness :
    (split_method_overload_javadoc [sigExampleA] exampleMatcher
      "junk\nmore junk").length = 1
  ∧ split_method_overload_javadoc [sigExampleA] exampleMatcher
      "junk\nmore junk" = List.replicate 1 "" :=
  ⟨(split_method_overload_javadoc_total [sigExampleA] exampleMatcher
      "junk\nmore junk").1,
   (split_method_overload_javadoc_total [sigExampleA] exampleMatcher
      "junk\nmore junk").2 (by decide)⟩

/-- `Except.isOk` reduces on an `ok` value. -/
theorem except_isOk_ok {ε α : Type} (a : α) :
    (Except.ok a : Except ε α).isOk = true := rfl

/-- `Except.isOk` reduces on an `error` value. -/
theorem except_isOk_error {ε α : Type} (e : ε) :
    (Except.error e : Except ε α).isOk = false := rfl

/-- `translate_type_name` only raises when called with both the argument and
the array-element flag set on a primitive-table name. -/
theorem translate_type_name_ok (type_name : String)
    (type_args : Option (List TypeStr)) (is_argument is_array_param : Bool)
    (h : is_argument = false ∨ is_array_param = false) :
    (translate_type_name type_name type_args is_argument
      is_array_param).isOk = true := by
  unfold translate_type_name
  cases hfind : TYPE_NAME_TO_PRIMITIVE_MAP type_name with
  | none => simp [except_isOk_ok]
  | some p => rcases h with h | h <;> simp [h, except_isOk_ok]

mutual

/-- C10 (core): on every call path inside the translator, the argument and
array-element flags are never simultaneously set — array-element translation
always re-enters with `is_argument = False` — so whenever the translator is
entered with at most one of the two flags set, no branch raises. -/
theorem python_type_core_ok :
    ∀ (t : JavaType) (tv : List TypeVarStr) (a b : Bool),
    (a = false ∨ b = false) →
    (python_type_core t tv a b).isOk = true
  | .parameterized raw args, tv, a, b, h => by
      have hargs := python_type_args_ok args tv a b h
      rw [python_type_core.eq_def]
      cases hx : python_type_args args tv a b with
      | error e => simp [hx, except_isOk_error] at hargs
      | ok targs =>
          simp only [hx]
          exact translate_type_name_ok raw (some targs) a b h
  | .typeVariable name bound1 boundRest, tv, a, b, h => by
      rw [python_type_core.eq_def]
      cases hm : tv.filter (fun v => v.java_name == name) with
      | nil =>
          simp only [hm]
          cases bound1 with
          | parameterized raw args =>
              exact translate_type_name_ok raw none false false (Or.inl rfl)
          | typeVariable n2 b2 r2 =>
              exact python_type_core_ok (.typeVariable n2 b2 r2) tv false
                false (Or.inl rfl)
          | wildcard u2 r2 l2 =>
              exact python_type_core_ok (.wildcard u2 r2 l2) tv false false
                (Or.inl rfl)
          | genericArray c =>
              exact python_type_core_ok (.genericArray c) tv false false
                (Or.inl rfl)
          | jclass n2 c2 =>
              exact python_type_core_ok (.jclass n2 c2) tv false false
                (Or.inl rfl)
      | cons v vrest =>
          cases vrest with
          | nil =>
              simp only [hm]
              exact except_isOk_ok _
          | cons v2 vrest2 =>
              simp only [hm]
              cases bound1 with
              | parameterized raw args =>
                  exact translate_type_name_ok raw none false false
                    (Or.inl rfl)
              | typeVariable n2 b2 r2 =>
                  exact python_type_core_ok (.typeVariable n2 b2 r2) tv false
                    false (Or.inl rfl)
              | wildcard u2 r2 l2 =>
                  exact python_type_core_ok (.wildcard u2 r2 l2) tv false
                    false (Or.inl rfl)
              | genericArray c =>
                  exact python_type_core_ok (.genericArray c) tv false false
                    (Or.inl rfl)
              | jclass n2 c2 =>
                  exact python_type_core_ok (.jclass n2 c2) tv false false
                    (Or.inl rfl)
  | .wildcard upper1 upperRest lowerBounds, tv, a, b, h => by
      rw [python_type_core.eq_def]
      cases hobj : type_name_is_java_lang_object upper1 with
      | true =>
          simp only [hobj, if_true]
          cases lowerBounds with
          | nil =>
              exact python_type_core_ok upper1 tv false false (Or.inl rfl)
          | cons lb tl =>
              exact python_type_core_ok lb tv false false (Or.inl rfl)
      | false =>
          simp only [hobj, Bool.false_eq_true, if_false]
          exact python_type_core_ok upper1 tv false false (Or.inl rfl)
  | .genericArray componentType, tv, a, b, h => by
      have hc := python_type_core_ok componentType tv false true (Or.inl rfl)
      rw [python_type_core.eq_def]
      cases hx : python_type_core componentType tv false true with
      | error e => simp [hx, except_isOk_error] at hc
      | ok r =>
          simp only [hx]
          exact except_isOk_ok _
  | .jclass name componentType, tv, a, b, h => by
      rw [python_type_core.eq_def]
      cases componentType with
      | some c =>
          have hc := python_type_core_ok c tv false true (Or.inl rfl)
          cases hx : python_type_core c tv false true with
          | error e => simp [hx, except_isOk_error] at hc
          | ok r =>
              simp only [hx]
              exact except_isOk_ok _
      | none => exact translate_type_name_ok name none a b h

/-- The type-argument list translation propagates `ok` results. -/
theorem python_type_args_ok :
    ∀ (ts : List JavaType) (tv : List TypeVarStr) (a b : Bool),
    (a = false ∨ b = false) →
    (python_type_args ts tv a b).isOk = true
  | [], _, _, _, _ => except_isOk_ok _
  | x :: rest, tv, a, b, h => by
      have hx := python_type_core_ok x tv a b h
      have hr := python_type_args_ok rest tv a b h
      rw [python_type_args.eq_def]
      cases h1 : python_type_core x tv a b with
      | error e => simp [h1, except_isOk_error] at hx
      | ok t =>
          simp only [h1]
          cases h2 : python_type_args rest tv a b with
          | error e => simp [h2, except_isOk_error] at hr
          | ok ts2 =>
              simp only [h2]
              exact except_isOk_ok _

end

/-- C10: the public entry point `python_type` never raises as long as at
most one of `is_argument`/`is_array_param` is set — in particular the
`ValueError` branch of `translate_type_name` is unreachable from every call
site in the file, all of which pass at most one flag, and primitive
array-element types translate without raising. -/
theorem python_type_never_raises (java_type : Option JavaType)
    (type_vars : List TypeVarStr) (is_argument is_array_param : Bool)
    (h : is_argument = false ∨ is_array_param = false) :
    (python_type java_type type_vars is_argument is_array_param).isOk
      = true := by
  cases java_type with
  | none => rfl
  | some t => exact python_type_core_ok t type_vars _ _ h

/-- Witness for C10: the primitive array type `int[]` in argument position —
the path through `translate_java_array_type` that re-enters with
`is_array_param = True` — translates without raising. -/
theorem python_type_never_raises_witness :
    (python_type (some (.genericArray (.jclass "int" none))) [] true
      false).isOk = true :=
  python_type_never_raises (some (.genericArray (.jclass "int" none))) []
    true false (Or.inr rfl)

/-- C1 counterexample: the interface `com.example.BiFunction` with type
parameters `[T1, T2, R]` and single qualifying abstract method
`R apply(T1, T2)` qualifies, and `mangle_callable_type_args` computes the
callable type arguments `[[X, Y], Z]` — but the stub pipeline's type
translation (`python_type`) of the parametrized type never invokes it
(`mangle_callable_type_args` has no caller in the repository) and instead
yields the plain generic reference with its three type arguments, which is
not the callable type. -/
theorem functional_interface_translation_counterexample :
    (invoked_method_on_functional_interface biFunctionExample).isSome = true
  ∧ mangle_callable_type_args biFunctionExample
      (some [TypeStr.mk "com.example.X" none, TypeStr.mk "com.example.Y" none,
        TypeStr.mk "com.example.Z" none]) =
      .ok (some [TypeStr.mk "" (some [TypeStr.mk "com.example.X" none,
        TypeStr.mk "com.example.Y" none]), TypeStr.mk "com.example.Z" none])
  ∧ python_type
      (some (.parameterized "com.example.BiFunction" [exX, exY, exZ]))
      [] false false =
      .ok (TypeStr.mk "com.example.BiFunction"
        (some [TypeStr.mk "com.example.X" none,
          TypeStr.mk "com.example.Y" none, TypeStr.mk "com.example.Z" none]))
  ∧ TypeStr.mk "com.example.BiFunction"
      (some [TypeStr.mk "com.example.X" none, TypeStr.mk "com.example.Y" none,
        TypeStr.mk "com.example.Z" none]) ≠
      TypeStr.mk "typing.Callable"
        (some [TypeStr.mk "" (some [TypeStr.mk "com.example.X" none,
          TypeStr.mk "com.example.Y" none]),
          TypeStr.mk "com.example.Z" none]) :=
  ⟨by decide, by decide, by decide, by decide⟩

/-- C1 (amended): `mangle_callable_type_args` itself — uncalled by the
pipeline — does realize the claimed substitution: for an interface of the
`[T1, T2, R]` / `R apply(T1, T2)` shape whose method is public, abstract and
non-static, instantiation with `[X, Y, Z]` yields the callable type-argument
list `[[X, Y], Z]`, each type-parameter occurrence substituted by positional
index. -/
theorem mangle_callable_type_args_substitution (mods : Nat)
    (b1 b2 br : JavaType) (X Y Z : TypeStr) (hpub : is_public mods = true)
    (habs : is_abstract mods = true) (hstat : is_static mods = false) :
    mangle_callable_type_args (biFunctionShape mods b1 b2 br)
      (some [X, Y, Z]) = .ok (some [TypeStr.mk "" (some [X, Y]), Z]) := by
  have ht12 : (JavaType.typeVariable "T1" b1 [] == JavaType.typeVariable "T2" b2 []) = false := by
    simp
  have ht1r : (JavaType.typeVariable "T1" b1 [] == JavaType.typeVariable "R" br []) = false := by
    simp
  have ht2r : (JavaType.typeVariable "T2" b2 [] == JavaType.typeVariable "R" br []) = false := by
    simp
  have h1 : resolve_functional_Interface_method_type
      (.typeVariable "T1" b1 [])
      [.typeVariable "T1" b1 [], .typeVariable "T2" b2 [],
        .typeVariable "R" br []] (some [X, Y, Z]) = .ok X := by
    simp [resolve_functional_Interface_method_type, List.contains,
      List.findIdx_cons]
  have h2 : resolve_functional_Interface_method_type
      (.typeVariable "T2" b2 [])
      [.typeVariable "T1" b1 [], .typeVariable "T2" b2 [],
        .typeVariable "R" br []] (some [X, Y, Z]) = .ok Y := by
    simp [resolve_functional_Interface_method_type, List.contains,
      List.findIdx_cons, ht12]
  have h3 : resolve_functional_Interface_method_type
      (.typeVariable "R" br [])
      [.typeVariable "T1" b1 [], .typeVariable "T2" b2 [],
        .typeVariable "R" br []] (some [X, Y, Z]) = .ok Z := by
    simp [resolve_functional_Interface_method_type, List.contains,
      List.findIdx_cons, ht1r, ht2r]
  unfold mangle_callable_type_args invoked_method_on_functional_interface
    biFunctionShape
  simp only [List.find?, hpub, habs, hstat, Bool.not_false, Bool.not_true,
    Bool.and_true, Bool.and_false, Bool.true_and, Bool.false_and]
  simp only [List.mapM_cons, List.mapM_nil, h1, h2, h3]
  rfl

/-- Witness for C1 (amended), at `PUBLIC | ABSTRACT` modifiers and
`java.lang.Object` bounds. -/
theorem mangle_callable_type_args_substitution_witness :
    mangle_callable_type_args
      (biFunctionShape 1025 (.jclass "java.lang.Object" none)
        (.jclass "java.lang.Object" none) (.jclass "java.lang.Object" none))
      (some [TypeStr.mk "X" none, TypeStr.mk "Y" none, TypeStr.mk "Z" none]) =
      .ok (some [TypeStr.mk "" (some [TypeStr.mk "X" none,
        TypeStr.mk "Y" none]), TypeStr.mk "Z" none]) :=
  mangle_callable_type_args_substitution 1025 _ _ _ _ _ _ (by decide)
    (by decide) (by decide)

/-! ### Scheduler support lemmas -/

/-- Membership in `set_add`. -/
theorem mem_set_add {s : List String} {x y : String} :
    y ∈ set_add s x ↔ y ∈ s ∨ y = x := by
  unfold set_add
  by_cases h : x ∈ s
  · simp only [h, if_true]
    constructor
    · exact Or.inl
    · rintro (hy | rfl) <;> [exact hy; exact h]
  · simp [h]

/-- Membership in `set_union`. -/
theorem mem_set_union {xs : List String} :
    ∀ {s : List String} {y : String},
    (y ∈ set_union s xs ↔ y ∈ s ∨ y ∈ xs) := by
  induction xs with
  | nil => simp [set_union]
  | cons x rest ih =>
      intro s y
      show y ∈ set_union (set_add s x) rest ↔ _
      rw [ih, mem_set_add]
      simp [or_assoc]

/-- Membership in `py_dedup_go`. -/
theorem mem_py_dedup_go : ∀ (l seen : List String) (x : String),
    x ∈ py_dedup_go seen l ↔ x ∈ l ∧ x ∉ seen
  | [], seen, x => by simp [py_dedup_go]
  | a :: rest, seen, x => by
      rw [py_dedup_go]
      by_cases ha : seen.contains a
      · rw [if_pos ha, mem_py_dedup_go rest seen x]
        have ha' := List.contains_iff_exists_mem_beq.mp ha
        rcases ha' with ⟨b, hb, hab⟩
        have : a = b := by simpa using hab
        subst this
        constructor
        · rintro ⟨h1, h2⟩; exact ⟨List.mem_cons_of_mem _ h1, h2⟩
        · rintro ⟨h1, h2⟩
          rcases List.mem_cons.mp h1 with rfl | h1
          · exact absurd hb h2
          · exact ⟨h1, h2⟩
      · rw [if_neg ha]
        have hnm : a ∉ seen := fun hmem =>
          ha (List.contains_iff_exists_mem_beq.mpr ⟨a, hmem, by simp⟩)
        constructor
        · intro hx
          rcases List.mem_cons.mp hx with rfl | hx
          · exact ⟨List.mem_cons_self _ _, hnm⟩
          · have := (mem_py_dedup_go rest (seen ++ [a]) x).mp hx
            refine ⟨List.mem_cons_of_mem _ this.1, fun hs => this.2 ?_⟩
            simp [hs]
        · rintro ⟨h1, h2⟩
          rcases List.mem_cons.mp h1 with rfl | h1
          · exact List.mem_cons_self _ _
          · by_cases hxa : x = a
            · subst hxa; exact List.mem_cons_self _ _
            · refine List.mem_cons_of_mem _
                ((mem_py_dedup_go rest (seen ++ [a]) x).mpr ⟨h1, ?_⟩)
              simp [h2, hxa]

/-- Membership in `py_dedup`. -/
theorem mem_py_dedup {l : List String} {x : String} :
    x ∈ py_dedup l ↔ x ∈ l := by
  rw [py_dedup, mem_py_dedup_go]
  simp

/-- `py_dedup_go` produces no duplicates. -/
theorem nodup_py_dedup_go : ∀ (l seen : List String),
    (py_dedup_go seen l).Nodup
  | [], seen => List.nodup_nil
  | a :: rest, seen => by
      rw [py_dedup_go]
      by_cases ha : seen.contains a
      · rw [if_pos ha]; exact nodup_py_dedup_go rest seen
      · rw [if_neg ha]
        refine List.Nodup.cons ?_ (nodup_py_dedup_go rest (seen ++ [a]))
        intro hmem
        have := (mem_py_dedup_go rest (seen ++ [a]) a).mp hmem
        exact this.2 (by simp)

/-- `py_dedup` produces no duplicates. -/
theorem nodup_py_dedup (l : List String) : (py_dedup l).Nodup :=
  nodup_py_dedup_go l []

/-- `py_sorted` is a permutation. -/
theorem py_sorted_perm (l : List String) : (py_sorted l).Perm l :=
  List.perm_insertionSort _ l

mutual

/-- `gen_class` adds to `classes_done` exactly the class's own simple name
and the names of its (transitively) nested member classes. -/
theorem gen_class_done_mem : ∀ (c : JClassS) (done used imp : List String)
    (x : String),
    x ∈ (gen_class c done used imp).1 ↔ x ∈ done ∨ x ∈ all_class_names c
  | .mk n stn us im nested, done, used, imp, x => by
      rw [gen_class, all_class_names]
      rw [mem_set_add, mem_set_union]
      constructor
      · rintro ((hd | hacc) | rfl)
        · exact Or.inl hd
        · rcases gen_class_nested_done_sub nested done _ x hacc with
            h | h | h
          · simp at h
          · exact Or.inl h
          · exact Or.inr (List.mem_cons_of_mem _ h)
        · exact Or.inr (List.mem_cons_self _ _)
      · rintro (hd | hn)
        · exact Or.inl (Or.inl hd)
        · rcases List.mem_cons.mp hn with rfl | hn
          · exact Or.inr rfl
          · exact Or.inl (Or.inr (gen_class_nested_done_sup2 nested done _ x hn))

/-- Upper bound on the first component produced by the nested-class loop. -/
theorem gen_class_nested_done_sub : ∀ (ms : List JClassS)
    (outer : List String) (acc : List String × List String × List String)
    (x : String),
    x ∈ (gen_class_nested ms outer acc).1 →
    x ∈ acc.1 ∨ x ∈ outer ∨ x ∈ all_class_names_list ms
  | [], outer, acc, x => fun h => Or.inl h
  | m :: rest, outer, acc, x => by
      rw [gen_class_nested]
      intro h
      rcases gen_class_nested_done_sub rest outer _ x h with h1 | h1 | h1
      · rw [mem_set_union] at h1
        rcases h1 with h1 | h1
        · exact Or.inl h1
        · rcases (gen_class_done_mem m outer acc.2.1 acc.2.2 x).mp
            (by simpa using h1) with h2 | h2
          · exact Or.inr (Or.inl h2)
          · refine Or.inr (Or.inr ?_)
            rw [all_class_names_list]
            exact List.mem_append_left _ h2
      · exact Or.inr (Or.inl h1)
      · refine Or.inr (Or.inr ?_)
        rw [all_class_names_list]
        exact List.mem_append_right _ h1

/-- The nested-class loop keeps everything already accumulated. -/
theorem gen_class_nested_done_sup1 : ∀ (ms : List JClassS)
    (outer : List String) (acc : List String × List String × List String)
    (x : String),
    x ∈ acc.1 → x ∈ (gen_class_nested ms outer acc).1
  | [], outer, acc, x => fun h => h
  | m :: rest, outer, acc, x => by
      rw [gen_class_nested]
      intro h
      refine gen_class_nested_done_sup1 rest outer _ x ?_
      rw [mem_set_union]
      exact Or.inl h

/-- The nested-class loop records every nested class name. -/
theorem gen_class_nested_done_sup2 : ∀ (ms : List JClassS)
    (outer : List String) (acc : List String × List String × List String)
    (x : String),
    x ∈ all_class_names_list ms → x ∈ (gen_class_nested ms outer acc).1
  | [], outer, acc, x => by
      rw [all_class_names_list]
      intro h
      simp at h
  | m :: rest, outer, acc, x => by
      rw [all_class_names_list, gen_class_nested]
      intro h
      rcases List.mem_append.mp h with h | h
      · refine gen_class_nested_done_sup1 rest outer _ x ?_
        rw [mem_set_union]
        exact Or.inr ((gen_class_done_mem m outer acc.2.1 acc.2.2 x).mpr
          (Or.inr h))
      · exact gen_class_nested_done_sup2 rest outer _ x h

end

/-- `List.contains` on strings is membership. -/
theorem string_contains_iff_mem {l : List String} {a : String} :
    l.contains a = true ↔ a ∈ l := by
  rw [List.contains_iff_exists_mem_beq]
  constructor
  · rintro ⟨b, hb, hab⟩
    have : a = b := by simpa using hab
    subst this
    exact hb
  · intro h
    exact ⟨a, h, by simp⟩

mutual

/-- `dependencies_satisfied` is monotone in the done set. -/
theorem dependencies_satisfied_mono : ∀ (p : String) (c : JClassS)
    (d1 d2 : List String), (∀ x ∈ d1, x ∈ d2) →
    dependencies_satisfied p c d1 = true →
    dependencies_satisfied p c d2 = true
  | p, .mk n stn us im nested, d1, d2, hsub => by
      rw [dependencies_satisfied, dependencies_satisfied]
      intro h
      rcases Bool.and_eq_true_iff.mp h with ⟨h1, h2⟩
      refine Bool.and_eq_true_iff.mpr ⟨?_, ?_⟩
      · rw [List.all_eq_true] at h1 ⊢
        intro x hx
        have := h1 x hx
        rcases Bool.or_eq_true_iff.mp this with hm | hm
        · exact Bool.or_eq_true_iff.mpr (Or.inl hm)
        · refine Bool.or_eq_true_iff.mpr (Or.inr ?_)
          exact string_contains_iff_mem.mpr
            (hsub _ (string_contains_iff_mem.mp hm))
      · exact dependencies_satisfied_list_mono p nested d1 d2 hsub h2

/-- `dependencies_satisfied_list` is monotone in the done set. -/
theorem dependencies_satisfied_list_mono : ∀ (p : String)
    (ms : List JClassS) (d1 d2 : List String), (∀ x ∈ d1, x ∈ d2) →
    dependencies_satisfied_list p ms d1 = true →
    dependencies_satisfied_list p ms d2 = true
  | p, [], d1, d2, hsub => fun _ => rfl
  | p, m :: rest, d1, d2, hsub => by
      rw [dependencies_satisfied_list, dependencies_satisfied_list]
      intro h
      rcases Bool.and_eq_true_iff.mp h with ⟨h1, h2⟩
      exact Bool.and_eq_true_iff.mpr
        ⟨dependencies_satisfied_mono p m d1 d2 hsub h1,
         dependencies_satisfied_list_mono p rest d1 d2 hsub h2⟩

end

/-- `all_class_names` is the class's own name followed by its nested
descendants' names. -/
theorem all_class_names_eq (c : JClassS) :
    all_class_names c = c.name :: nested_class_names c := by
  cases c
  rfl

/-- What a successful attribute lookup tells us under `PkgWF`: the class
carries the looked-up name, the name is a `$`-free attribute name, and all
its nested descendants carry `$` names. -/
theorem pkg_lookup_spec {pkg : JPackageS} (hpkg : PkgWF pkg) {n : String}
    {c : JClassS} (h : pkg_lookup pkg n = some c) :
    c.name = n ∧ n ∈ pkg.attrs.map Prod.fst ∧
    str_contains_char n '$' = false ∧
    (∀ x ∈ nested_class_names c, str_contains_char x '$' = true) := by
  unfold pkg_lookup at h
  cases hf : pkg.attrs.find? (fun p => p.1 == n) with
  | none => rw [hf] at h; exact absurd h (by simp)
  | some pr =>
      rw [hf] at h
      have hpr2 : pr.2 = c := by simpa using h
      have hpr1 : pr.1 = n := by
        have := List.find?_some hf
        simpa using this
      have hmem : pr ∈ pkg.attrs := List.mem_of_find?_eq_some hf
      refine ⟨?_, ?_, ?_, ?_⟩
      · rw [← hpr2, ← hpr1]; exact hpkg.attr_names pr hmem
      · rw [← hpr1]; exact List.mem_map_of_mem Prod.fst hmem
      · rw [← hpr1]; exact hpkg.attr_no_dollar pr hmem
      · rw [← hpr2]
        intro x hx
        exact hpkg.attr_nested_dollar pr hmem x hx

/-- Two work-list classes with the same name are equal under the lookup
invariant. -/
theorem lookup_name_inj {pkg : JPackageS} {c1 c2 : JClassS}
    (h1 : pkg_lookup pkg c1.name = some c1)
    (h2 : pkg_lookup pkg c2.name = some c2) (hn : c1.name = c2.name) :
    c1 = c2 := by
  rw [hn] at h1
  rw [h1] at h2
  exact Option.some.inj h2

/-- The `classes_done` component of `emit_step`. -/
theorem emit_step_done_mem (st : SchedState) (c : JClassS) (x : String) :
    x ∈ (emit_step st c).classes_done ↔
    x ∈ st.classes_done ∨ x ∈ all_class_names c :=
  gen_class_done_mem c st.classes_done st.classes_used st.import_lines x

/-- The `emitted` component of `emit_step`. -/
theorem emit_step_emitted (st : SchedState) (c : JClassS) :
    (emit_step st c).emitted = st.emitted ++ [c.name] := rfl

/-- The `java_classes` component of `emit_step`. -/
theorem emit_step_java (st : SchedState) (c : JClassS) :
    (emit_step st c).java_classes = st.java_classes.erase c := rfl

/-- Emitting one looked-up, not-yet-done class preserves the loop
invariant. -/
theorem emit_step_state_wf {pkg : JPackageS} (hpkg : PkgWF pkg)
    {st : SchedState} {c : JClassS} (hwf : StateWF pkg st)
    (hlook : pkg_lookup pkg c.name = some c)
    (hnd : c.name ∉ st.classes_done) : StateWF pkg (emit_step st c) := by
  obtain ⟨hcn, hcmem, hcnd, hcnested⟩ := pkg_lookup_spec hpkg hlook
  have hjava_nodup : st.java_classes.Nodup :=
    List.Nodup.of_map JClassS.name hwf.list_names_nodup
  refine ⟨?_, ?_, ?_, ?_, ?_, ?_⟩
  · intro c' hc'
    rw [emit_step_java] at hc'
    exact hwf.list_lookup c' (List.erase_subset _ _ hc')
  · rw [emit_step_java]
    exact List.Nodup.sublist (List.Sublist.map _ (List.erase_sublist _ _))
      hwf.list_names_nodup
  · intro c' hc'
    rw [emit_step_java] at hc'
    rw [List.Nodup.mem_erase_iff hjava_nodup] at hc'
    obtain ⟨hne, hmem⟩ := hc'
    rw [emit_step_done_mem]
    rintro (hd | hall)
    · exact hwf.list_not_done c' hmem hd
    · rw [all_class_names_eq] at hall
      rcases List.mem_cons.mp hall with heq | hnest
      · exact hne (lookup_name_inj (hwf.list_lookup c' hmem)
          hlook heq)
      · have h1 := hcnested _ hnest
        have h2 := (pkg_lookup_spec hpkg (hwf.list_lookup c' hmem)).2.2.1
        rw [h1] at h2
        exact Bool.true_eq_false ▸ h2
  · rw [emit_step_emitted, List.nodup_append]
    refine ⟨hwf.emitted_nodup, List.nodup_singleton _, ?_⟩
    intro x hx hx'
    rcases List.mem_singleton.mp hx' with rfl
    exact hnd (hwf.emitted_done _ hx)
  · intro x hx
    rw [emit_step_emitted] at hx
    rw [emit_step_done_mem]
    rcases List.mem_append.mp hx with hx | hx
    · exact Or.inl (hwf.emitted_done x hx)
    · rcases List.mem_singleton.mp hx with rfl
      rw [all_class_names_eq]
      exact Or.inr (List.mem_cons_self _ _)
  · intro x hx hdollar
    rw [emit_step_done_mem] at hx
    rw [emit_step_emitted]
    rcases hx with hx | hx
    · exact List.mem_append_left _ (hwf.done_emitted x hx hdollar)
    · rw [all_class_names_eq] at hx
      rcases List.mem_cons.mp hx with rfl | hx
      · exact List.mem_append_right _ (List.mem_singleton.mpr rfl)
      · have := hcnested x hx
        rw [this] at hdollar
        exact absurd hdollar (by simp)

/-- The generation loop emits exactly the batch names, in order. -/
theorem emit_batch_emitted : ∀ (batch : List JClassS) (s : SchedState),
    (emit_batch batch s).emitted = s.emitted ++ batch.map JClassS.name
  | [], s => by simp [emit_batch]
  | c :: rest, s => by
      show (emit_batch rest (emit_step s c)).emitted = _
      rw [emit_batch_emitted rest (emit_step s c), emit_step_emitted]
      simp

/-- The generation loop never removes done names. -/
theorem emit_batch_done_mono : ∀ (batch : List JClassS) (s : SchedState)
    (x : String), x ∈ s.classes_done → x ∈ (emit_batch batch s).classes_done
  | [], s, x => fun h => h
  | c :: rest, s, x => fun h => by
      show x ∈ (emit_batch rest (emit_step s c)).classes_done
      exact emit_batch_done_mono rest _ x
        ((emit_step_done_mem s c x).mpr (Or.inl h))

/-- Every batch class's name is done after the generation loop. -/
theorem emit_batch_done_of_batch : ∀ (batch : List JClassS) (s : SchedState)
    (c : JClassS), c ∈ batch →
    c.name ∈ (emit_batch batch s).classes_done
  | [], _, c => fun hc => absurd hc (List.not_mem_nil c)
  | b :: rest, s, c => fun hc => by
      show c.name ∈ (emit_batch rest (emit_step s b)).classes_done
      rcases List.mem_cons.mp hc with rfl | hc
      · exact emit_batch_done_mono rest _ c.name
          ((emit_step_done_mem s c c.name).mpr
            (Or.inr (by rw [all_class_names_eq]; exact List.mem_cons_self _ _)))
      · exact emit_batch_done_of_batch rest _ c hc

/-- A work-list class outside the batch survives the generation loop. -/
theorem emit_batch_java_keep : ∀ (batch : List JClassS) (s : SchedState)
    (c : JClassS), c ∈ s.java_classes → c ∉ batch →
    c ∈ (emit_batch batch s).java_classes
  | [], s, c => fun hc _ => hc
  | b :: rest, s, c => fun hc hnb => by
      show c ∈ (emit_batch rest (emit_step s b)).java_classes
      refine emit_batch_java_keep rest _ c ?_
        (fun hmem => hnb (List.mem_cons_of_mem _ hmem))
      rw [emit_step_java]
      exact (List.mem_erase_of_ne
        (fun he => hnb (by rw [he]; exact List.mem_cons_self _ _))).mpr hc

/-- The generation loop preserves the loop invariant over a batch of
looked-up, name-distinct, not-yet-done classes. -/
theorem emit_batch_state_wf {pkg : JPackageS} (hpkg : PkgWF pkg) :
    ∀ (batch : List JClassS) (s : SchedState), StateWF pkg s →
    (∀ c ∈ batch, pkg_lookup pkg c.name = some c) →
    (batch.map JClassS.name).Nodup →
    (∀ c ∈ batch, c.name ∉ s.classes_done) →
    StateWF pkg (emit_batch batch s)
  | [], s, hs, _, _, _ => hs
  | c :: rest, s, hs, hlook, hnodup, hnd => by
      show StateWF pkg (emit_batch rest (emit_step s c))
      have hs1 := emit_step_state_wf hpkg hs
        (hlook c (List.mem_cons_self _ _)) (hnd c (List.mem_cons_self _ _))
      have hcspec := pkg_lookup_spec hpkg (hlook c (List.mem_cons_self _ _))
      have hnodup' : c.name ∉ rest.map JClassS.name ∧
          (rest.map JClassS.name).Nodup := by
        rw [List.map_cons, List.nodup_cons] at hnodup
        exact hnodup
      refine emit_batch_state_wf hpkg rest (emit_step s c) hs1
        (fun c' hc' => hlook c' (List.mem_cons_of_mem _ hc')) hnodup'.2 ?_
      · intro c' hc'
        rw [emit_step_done_mem]
        rintro (hd | hall)
        · exact hnd c' (List.mem_cons_of_mem _ hc') hd
        · rw [all_class_names_eq] at hall
          rcases List.mem_cons.mp hall with heq | hnest
          · exact hnodup'.1 (heq ▸ List.mem_map_of_mem JClassS.name hc')
          · have h1 := hcspec.2.2.2 _ hnest
            have h2 := (pkg_lookup_spec hpkg
              (hlook c' (List.mem_cons_of_mem _ hc'))).2.2.1
            rw [h1] at h2
            exact absurd h2 (by simp)

/-- The `classes_done` growth of one repair step. -/
theorem repair_step_done_sub (pkg : JPackageS) (st : SchedState) (n x : String)
    (h : x ∈ (repair_step pkg st n).classes_done) :
    x ∈ st.classes_done ∨ x = n := by
  unfold repair_step at h
  split at h
  · split at h
    · exact Or.inl h
    · exact Or.inl h
  · exact mem_set_add.mp h

/-- One repair step never removes done names. -/
theorem repair_step_done_mono (pkg : JPackageS) (st : SchedState)
    (n x : String) (h : x ∈ st.classes_done) :
    x ∈ (repair_step pkg st n).classes_done := by
  unfold repair_step
  split
  · split
    · exact h
    · exact h
  · exact mem_set_add.mpr (Or.inl h)

/-- One repair step extends `emitted` only by placeholder names
(unresolvable by lookup). -/
theorem repair_step_emitted_extends (pkg : JPackageS) (st : SchedState)
    (n : String) :
    ∃ tail, (repair_step pkg st n).emitted = st.emitted ++ tail ∧
      ∀ y ∈ tail, pkg_lookup pkg y = none := by
  unfold repair_step
  split
  · split
    · exact ⟨[], by simp, by simp⟩
    · exact ⟨[], by simp, by simp⟩
  next heq =>
    refine ⟨[n], rfl, ?_⟩
    intro y hy
    rcases List.mem_singleton.mp hy with rfl
    exact heq

/-- One repair step keeps every queued class. -/
theorem repair_step_java_keep (pkg : JPackageS) (st : SchedState)
    (n : String) (c : JClassS) (h : c ∈ st.java_classes) :
    c ∈ (repair_step pkg st n).java_classes := by
  unfold repair_step
  split
  · split
    · exact h
    · exact List.mem_append_left _ h
  · exact h

/-- The repair fold never removes done names. -/
theorem repair_fold_done_mono (pkg : JPackageS) : ∀ (names : List String)
    (st : SchedState) (x : String), x ∈ st.classes_done →
    x ∈ (names.foldl (repair_step pkg) st).classes_done
  | [], st, x => fun h => h
  | n :: rest, st, x => fun h =>
      repair_fold_done_mono pkg rest _ x (repair_step_done_mono pkg st n x h)

/-- The repair fold extends `emitted` only by placeholder names. -/
theorem repair_fold_emitted_extends (pkg : JPackageS) : ∀ (names : List String)
    (st : SchedState),
    ∃ tail, (names.foldl (repair_step pkg) st).emitted = st.emitted ++ tail ∧
      ∀ y ∈ tail, pkg_lookup pkg y = none
  | [], st => ⟨[], by simp, by simp⟩
  | n :: rest, st => by
      obtain ⟨t1, ht1, ht1n⟩ := repair_step_emitted_extends pkg st n
      obtain ⟨t2, ht2, ht2n⟩ := repair_fold_emitted_extends pkg rest
        (repair_step pkg st n)
      refine ⟨t1 ++ t2, ?_, ?_⟩
      · show ((n :: rest).foldl (repair_step pkg) st).emitted = _
        rw [List.foldl_cons, ht2, ht1, List.append_assoc]
      · intro y hy
        rcases List.mem_append.mp hy with hy | hy
        · exact ht1n y hy
        · exact ht2n y hy

/-- The repair fold keeps every queued class. -/
theorem repair_fold_java_keep (pkg : JPackageS) : ∀ (names : List String)
    (st : SchedState) (c : JClassS), c ∈ st.java_classes →
    c ∈ (names.foldl (repair_step pkg) st).java_classes
  | [], st, c => fun h => h
  | n :: rest, st, c => fun h =>
      repair_fold_java_keep pkg rest _ c (repair_step_java_keep pkg st n c h)

/-- One repair step on a `$`-free, not-yet-done name preserves the loop
invariant. -/
theorem repair_step_state_wf {pkg : JPackageS} (hpkg : PkgWF pkg)
    {st : SchedState} {n : String} (hwf : StateWF pkg st)
    (hdollar : str_contains_char n '$' = false)
    (hnd : n ∉ st.classes_done) : StateWF pkg (repair_step pkg st n) := by
  unfold repair_step
  split
  next cls heq =>
    split
    next hmem => exact hwf
    next hmem =>
      obtain ⟨hname, _, _, _⟩ := pkg_lookup_spec hpkg heq
      refine ⟨?_, ?_, ?_, hwf.emitted_nodup, hwf.emitted_done,
        hwf.done_emitted⟩
      · intro c' hc'
        rcases List.mem_append.mp hc' with hc' | hc'
        · exact hwf.list_lookup c' hc'
        · rcases List.mem_singleton.mp hc' with rfl
          rw [hname]
          exact heq
      · rw [List.map_append, List.nodup_append]
        refine ⟨hwf.list_names_nodup, by simp, ?_⟩
        intro y hy hy'
        rcases List.mem_map.mp hy with ⟨c', hc', rfl⟩
        simp only [List.map_cons, List.map_nil, List.mem_singleton] at hy'
        rw [hname] at hy'
        have hcl := hwf.list_lookup c' hc'
        rw [hy'] at hcl
        rw [hcl] at heq
        cases Option.some.inj heq
        exact hmem hc'
      · intro c' hc'
        rcases List.mem_append.mp hc' with hc' | hc'
        · exact hwf.list_not_done c' hc'
        · rcases List.mem_singleton.mp hc' with rfl
          rw [hname]
          exact hnd
  next heq =>
    refine ⟨hwf.list_lookup, hwf.list_names_nodup, ?_, ?_, ?_, ?_⟩
    · intro c' hc' hd
      rcases mem_set_add.mp hd with hd | hd
      · exact hwf.list_not_done c' hc' hd
      · have hcl := hwf.list_lookup c' hc'
        rw [hd] at hcl
        rw [hcl] at heq
        exact Option.noConfusion heq
    · rw [List.nodup_append]
      refine ⟨hwf.emitted_nodup, by simp, ?_⟩
      intro y hy hy'
      rcases List.mem_singleton.mp hy' with rfl
      exact hnd (hwf.emitted_done y hy)
    · intro x hx
      rcases List.mem_append.mp hx with hx | hx
      · exact mem_set_add.mpr (Or.inl (hwf.emitted_done x hx))
      · rcases List.mem_singleton.mp hx with rfl
        exact mem_set_add.mpr (Or.inr rfl)
    · intro x hx hxd
      rcases mem_set_add.mp hx with hx | hx
      · exact List.mem_append_left _ (hwf.done_emitted x hx hxd)
      · exact hx ▸ List.mem_append_right _ (List.mem_singleton.mpr rfl)

/-- The repair fold over distinct, `$`-free, not-yet-done names preserves
the loop invariant. -/
theorem repair_fold_state_wf {pkg : JPackageS} (hpkg : PkgWF pkg) :
    ∀ (names : List String) (st : SchedState), StateWF pkg st →
    names.Nodup →
    (∀ x ∈ names, str_contains_char x '$' = false ∧ x ∉ st.classes_done) →
    StateWF pkg (names.foldl (repair_step pkg) st)
  | [], st, hs, _, _ => hs
  | n :: rest, st, hs, hnodup, hok => by
      show StateWF pkg (rest.foldl (repair_step pkg) (repair_step pkg st n))
      have h0 := hok n (List.mem_cons_self _ _)
      refine repair_fold_state_wf hpkg rest _
        (repair_step_state_wf hpkg hs h0.1 h0.2)
        (List.nodup_cons.mp hnodup).2 ?_
      intro x hx
      have hxok := hok x (List.mem_cons_of_mem _ hx)
      refine ⟨hxok.1, fun hd => ?_⟩
      rcases repair_step_done_sub pkg st n x hd with hd | rfl
      · exact hxok.2 hd
      · exact (List.nodup_cons.mp hnodup).1 hx

/-- The batch selection, unfolded. -/
theorem pass_batch_eq (pkg : JPackageS) (s : SchedState) :
    pass_batch pkg s =
    (if (satisfied_classes pkg s).isEmpty then s.java_classes
     else satisfied_classes pkg s).insertionSort
      (fun a b => a.name.data ≤ b.name.data) := rfl

/-- Every batch class comes from the work list. -/
theorem pass_batch_mem (pkg : JPackageS) (s : SchedState) (c : JClassS)
    (h : c ∈ pass_batch pkg s) : c ∈ s.java_classes := by
  rw [pass_batch_eq] at h
  have h' := (List.perm_insertionSort
    (fun a b : JClassS => a.name.data ≤ b.name.data) _).mem_iff.mp h
  split at h'
  · exact h'
  · unfold satisfied_classes at h'
    exact (List.mem_filter.mp h').1

/-- Distinct work-list names give distinct batch names. -/
theorem pass_batch_names_nodup (pkg : JPackageS) (s : SchedState)
    (h : (s.java_classes.map JClassS.name).Nodup) :
    ((pass_batch pkg s).map JClassS.name).Nodup := by
  rw [pass_batch_eq]
  refine ((List.perm_insertionSort
    (fun a b : JClassS => a.name.data ≤ b.name.data) _).map
      JClassS.name).nodup_iff.mpr ?_
  split
  · exact h
  · unfold satisfied_classes
    exact List.Nodup.sublist (List.Sublist.map _ (List.filter_sublist _)) h

/-- A nonempty work list gives a nonempty batch (fallback included). -/
theorem pass_batch_ne_nil (pkg : JPackageS) (s : SchedState)
    (h : s.java_classes ≠ []) : pass_batch pkg s ≠ [] := by
  rw [pass_batch_eq]
  intro hnil
  have hp := List.perm_insertionSort
    (fun a b : JClassS => a.name.data ≤ b.name.data)
    (if (satisfied_classes pkg s).isEmpty then s.java_classes
     else satisfied_classes pkg s)
  rw [hnil] at hp
  have hLnil := hp.symm.eq_nil
  by_cases he : (satisfied_classes pkg s).isEmpty
  · rw [if_pos he] at hLnil
    exact h hLnil
  · rw [if_neg he] at hLnil
    rw [hLnil] at he
    exact he rfl

/-- The fallback: when no class is dependency-satisfied, the batch is the
entire remaining work list. -/
theorem pass_batch_all {pkg : JPackageS} {s : SchedState}
    (hsat : satisfied_classes pkg s = []) (c : JClassS)
    (hc : c ∈ s.java_classes) : c ∈ pass_batch pkg s := by
  rw [pass_batch_eq]
  rw [(List.perm_insertionSort
    (fun a b : JClassS => a.name.data ≤ b.name.data) _).mem_iff, hsat]
  simp [hc]

/-- Filter length is monotone in predicate implication. -/
theorem filter_length_le_of_imp : ∀ (l : List String) (p q : String → Bool),
    (∀ x, p x = true → q x = true) →
    (l.filter p).length ≤ (l.filter q).length
  | [], _, _, _ => Nat.le_refl _
  | a :: rest, p, q, h => by
      rw [List.filter_cons, List.filter_cons]
      by_cases hp : p a = true
      · rw [if_pos hp, if_pos (h a hp)]
        exact Nat.succ_le_succ (filter_length_le_of_imp rest p q h)
      · rw [if_neg hp]
        by_cases hq : q a = true
        · rw [if_pos hq]
          exact Nat.le_succ_of_le (filter_length_le_of_imp rest p q h)
        · rw [if_neg hq]
          exact filter_length_le_of_imp rest p q h

/-- Filter length drops strictly when one surviving element is lost. -/
theorem filter_length_lt_of_imp : ∀ (l : List String) (p q : String → Bool),
    (∀ x, p x = true → q x = true) → ∀ n, n ∈ l → q n = true → p n = false →
    (l.filter p).length < (l.filter q).length
  | [], _, _, _, n, hn, _, _ => absurd hn (List.not_mem_nil n)
  | a :: rest, p, q, h, n, hn, hqn, hpn => by
      rw [List.filter_cons, List.filter_cons]
      rcases List.mem_cons.mp hn with rfl | hn
      · rw [if_neg (by simp [hpn]), if_pos hqn]
        exact Nat.lt_succ_of_le (filter_length_le_of_imp rest p q h)
      · by_cases hpa : p a = true
        · rw [if_pos hpa, if_pos (h a hpa)]
          exact Nat.succ_lt_succ
            (filter_length_lt_of_imp rest p q h n hn hqn hpn)
        · rw [if_neg hpa]
          by_cases hqa : q a = true
          · rw [if_pos hqa]
            exact Nat.lt_succ_of_lt
              (filter_length_lt_of_imp rest p q h n hn hqn hpn)
          · rw [if_neg hqa]
            exact filter_length_lt_of_imp rest p q h n hn hqn hpn

/-- The termination measure is antitone in the done set. -/
theorem remaining_count_le {pkg : JPackageS} {s sx : SchedState}
    (h : ∀ x ∈ s.classes_done, x ∈ sx.classes_done) :
    remaining_count pkg sx ≤ remaining_count pkg s := by
  refine filter_length_le_of_imp _ _ _ ?_
  intro x hx
  by_cases hm : x ∈ s.classes_done
  · rw [string_contains_iff_mem.mpr (h x hm)] at hx
    exact absurd hx (by decide)
  · cases hc : s.classes_done.contains x
    · rfl
    · exact absurd (string_contains_iff_mem.mp hc) hm

/-- The termination measure drops strictly when a remaining attribute name
becomes done. -/
theorem remaining_count_lt {pkg : JPackageS} {s sx : SchedState}
    (h : ∀ x ∈ s.classes_done, x ∈ sx.classes_done)
    (n : String) (hn : n ∈ pkg.attrs.map Prod.fst)
    (hnotdone : n ∉ s.classes_done) (hdone : n ∈ sx.classes_done) :
    remaining_count pkg sx < remaining_count pkg s := by
  refine filter_length_lt_of_imp _ _ _ ?_ n hn ?_ ?_
  · intro x hx
    by_cases hm : x ∈ s.classes_done
    · rw [string_contains_iff_mem.mpr (h x hm)] at hx
      exact absurd hx (by decide)
    · cases hc : s.classes_done.contains x
      · rfl
      · exact absurd (string_contains_iff_mem.mp hc) hm
  · cases hc : s.classes_done.contains n
    · rfl
    · exact absurd (string_contains_iff_mem.mp hc) hnotdone
  · rw [string_contains_iff_mem.mpr hdone]
    rfl

/-- Local names selected by `filter_class_names_in_package` are `$`-free. -/
theorem filter_class_names_no_dollar {pn : String} {types : List String}
    {x : String} (hx : x ∈ filter_class_names_in_package pn types) :
    str_contains_char x '$' = false := by
  unfold filter_class_names_in_package at hx
  rw [mem_py_dedup] at hx
  rcases List.mem_map.mp hx with ⟨typ, htyp, rfl⟩
  have h2 := (List.mem_filter.mp htyp).2
  rcases Bool.and_eq_true_iff.mp h2 with ⟨_, h3⟩
  cases hc : str_contains_char (local_of typ) '$'
  · rfl
  · rw [hc] at h3
    exact absurd h3 (by decide)

/-- The repair fold of `repair_missing`, unfolded. -/
theorem repair_missing_eq (pkg : JPackageS) (s : SchedState) :
    repair_missing pkg s =
    (py_sorted ((filter_class_names_in_package pkg.name s.classes_used).filter
      (fun n => n ∉ s.classes_done))).foldl (repair_step pkg) s := rfl

/-- The missing-name list of `repair_missing` is duplicate-free, `$`-free and
disjoint from the done set. -/
theorem repair_missing_names_ok (pkg : JPackageS) (s : SchedState) :
    (py_sorted ((filter_class_names_in_package pkg.name s.classes_used).filter
      (fun n => n ∉ s.classes_done))).Nodup ∧
    ∀ x ∈ py_sorted ((filter_class_names_in_package pkg.name
        s.classes_used).filter (fun n => n ∉ s.classes_done)),
      str_contains_char x '$' = false ∧ x ∉ s.classes_done := by
  constructor
  · refine (py_sorted_perm _).nodup_iff.mpr ?_
    refine List.Nodup.filter _ ?_
    unfold filter_class_names_in_package
    exact nodup_py_dedup _
  · intro x hx
    have hx' := (py_sorted_perm _).mem_iff.mp hx
    have h1 := List.mem_filter.mp hx'
    exact ⟨filter_class_names_no_dollar h1.1, of_decide_eq_true h1.2⟩

/-- `repair_missing` preserves the loop invariant. -/
theorem repair_missing_state_wf {pkg : JPackageS} (hpkg : PkgWF pkg)
    {s : SchedState} (hwf : StateWF pkg s) :
    StateWF pkg (repair_missing pkg s) := by
  rw [repair_missing_eq]
  obtain ⟨hnd, hok⟩ := repair_missing_names_ok pkg s
  exact repair_fold_state_wf hpkg _ s hwf hnd hok

/-- `repair_missing` never removes done names. -/
theorem repair_missing_done_mono (pkg : JPackageS) (s : SchedState)
    (x : String) (h : x ∈ s.classes_done) :
    x ∈ (repair_missing pkg s).classes_done := by
  rw [repair_missing_eq]
  exact repair_fold_done_mono pkg _ s x h

/-- `repair_missing` extends `emitted` only by placeholder names. -/
theorem repair_missing_emitted_extends (pkg : JPackageS) (s : SchedState) :
    ∃ tail, (repair_missing pkg s).emitted = s.emitted ++ tail ∧
      ∀ y ∈ tail, pkg_lookup pkg y = none := by
  rw [repair_missing_eq]
  exact repair_fold_emitted_extends pkg _ s

/-- `repair_missing` keeps every queued class. -/
theorem repair_missing_java_keep (pkg : JPackageS) (s : SchedState)
    (c : JClassS) (h : c ∈ s.java_classes) :
    c ∈ (repair_missing pkg s).java_classes := by
  rw [repair_missing_eq]
  exact repair_fold_java_keep pkg _ s c h

/-- One pass preserves the loop invariant. -/
theorem sched_pass_state_wf {pkg : JPackageS} (hpkg : PkgWF pkg)
    {s : SchedState} (hwf : StateWF pkg s) :
    StateWF pkg (sched_pass pkg s) := by
  unfold sched_pass
  refine repair_missing_state_wf hpkg ?_
  refine emit_batch_state_wf hpkg _ s hwf ?_
    (pass_batch_names_nodup pkg s hwf.list_names_nodup) ?_
  · intro c hc
    exact hwf.list_lookup c (pass_batch_mem pkg s c hc)
  · intro c hc
    exact hwf.list_not_done c (pass_batch_mem pkg s c hc)

/-- One pass never removes done names. -/
theorem sched_pass_done_mono (pkg : JPackageS) (s : SchedState) (x : String)
    (h : x ∈ s.classes_done) : x ∈ (sched_pass pkg s).classes_done := by
  unfold sched_pass
  exact repair_missing_done_mono pkg _ x (emit_batch_done_mono _ s x h)

/-- On a nonempty work list one pass strictly shrinks the termination
measure. -/
theorem sched_pass_remaining_lt {pkg : JPackageS} (hpkg : PkgWF pkg)
    {s : SchedState} (hwf : StateWF pkg s) (hne : s.java_classes ≠ []) :
    remaining_count pkg (sched_pass pkg s) < remaining_count pkg s := by
  obtain ⟨c, hc⟩ := List.exists_mem_of_ne_nil _ (pass_batch_ne_nil pkg s hne)
  have hcj := pass_batch_mem pkg s c hc
  have hspec := pkg_lookup_spec hpkg (hwf.list_lookup c hcj)
  refine remaining_count_lt (fun x hx => sched_pass_done_mono pkg s x hx)
    c.name hspec.2.1 (hwf.list_not_done c hcj) ?_
  unfold sched_pass
  exact repair_missing_done_mono pkg _ _ (emit_batch_done_of_batch _ s c hc)

/-- One pass only appends to the emitted block list. -/
theorem sched_pass_emitted_mono (pkg : JPackageS) (s : SchedState)
    (x : String) (h : x ∈ s.emitted) : x ∈ (sched_pass pkg s).emitted := by
  unfold sched_pass
  obtain ⟨tail, ht, _⟩ := repair_missing_emitted_extends pkg
    (emit_batch (pass_batch pkg s) s)
  rw [ht, emit_batch_emitted]
  exact List.mem_append_left _ (List.mem_append_left _ h)

/-- Every work-list class is either emitted by a pass or still queued
afterwards. -/
theorem sched_pass_progress (pkg : JPackageS) (s : SchedState) (c : JClassS)
    (hc : c ∈ s.java_classes) :
    c.name ∈ (sched_pass pkg s).emitted ∨
    c ∈ (sched_pass pkg s).java_classes := by
  unfold sched_pass
  by_cases hb : c ∈ pass_batch pkg s
  · left
    obtain ⟨tail, ht, _⟩ := repair_missing_emitted_extends pkg
      (emit_batch (pass_batch pkg s) s)
    rw [ht, emit_batch_emitted]
    exact List.mem_append_left _ (List.mem_append_right _
      (List.mem_map_of_mem JClassS.name hb))
  · right
    exact repair_missing_java_keep pkg _ c (emit_batch_java_keep _ s c hc hb)

/-- A loop started on an empty work list is the identity. -/
theorem sched_loop_of_empty (pkg : JPackageS) : ∀ (fuel : Nat)
    (s : SchedState), s.java_classes = [] → sched_loop pkg fuel s = s
  | 0, _, _ => rfl
  | fuel + 1, s, h => by
      rw [sched_loop]
      rw [if_pos (by rw [h]; rfl)]

/-- Extra fuel after termination changes nothing. -/
theorem sched_loop_fuel_add (pkg : JPackageS) : ∀ (fuel k : Nat)
    (s : SchedState), (sched_loop pkg fuel s).java_classes = [] →
    sched_loop pkg (fuel + k) s = sched_loop pkg fuel s
  | 0, k, s, h => by
      rw [Nat.zero_add]
      exact sched_loop_of_empty pkg k s h
  | fuel + 1, k, s, h => by
      have hadd : fuel + 1 + k = (fuel + k) + 1 := by omega
      rw [hadd, sched_loop, sched_loop]
      by_cases he : s.java_classes.isEmpty
      · rw [if_pos he, if_pos he]
      · rw [if_neg he, if_neg he]
        refine sched_loop_fuel_add pkg fuel k (sched_pass pkg s) ?_
        rw [sched_loop, if_neg he] at h
        exact h

/-- With fuel exceeding the termination measure the loop drains the work
list and preserves the invariant. -/
theorem sched_loop_end {pkg : JPackageS} (hpkg : PkgWF pkg) :
    ∀ (fuel : Nat) (s : SchedState), StateWF pkg s →
    remaining_count pkg s < fuel →
    (sched_loop pkg fuel s).java_classes = [] ∧
    StateWF pkg (sched_loop pkg fuel s)
  | 0, _, _, hlt => absurd hlt (Nat.not_lt_zero _)
  | fuel + 1, s, hwf, hlt => by
      rw [sched_loop]
      by_cases he : s.java_classes.isEmpty
      · rw [if_pos he]
        exact ⟨List.isEmpty_iff.mp he, hwf⟩
      · rw [if_neg he]
        have hne : s.java_classes ≠ [] := fun hn => he (by rw [hn]; rfl)
        refine sched_loop_end hpkg fuel (sched_pass pkg s)
          (sched_pass_state_wf hpkg hwf) ?_
        have h1 := sched_pass_remaining_lt hpkg hwf hne
        omega

/-- The emitted block list only grows along the loop. -/
theorem sched_loop_emitted_mono (pkg : JPackageS) : ∀ (fuel : Nat)
    (s : SchedState) (x : String), x ∈ s.emitted →
    x ∈ (sched_loop pkg fuel s).emitted
  | 0, _, _ => fun h => h
  | fuel + 1, s, x => fun h => by
      rw [sched_loop]
      by_cases he : s.java_classes.isEmpty
      · rw [if_pos he]; exact h
      · rw [if_neg he]
        exact sched_loop_emitted_mono pkg fuel _ x
          (sched_pass_emitted_mono pkg s x h)

/-- Every queued class is eventually emitted or still queued at the end. -/
theorem sched_loop_progress (pkg : JPackageS) : ∀ (fuel : Nat)
    (s : SchedState) (c : JClassS), c ∈ s.java_classes →
    c.name ∈ (sched_loop pkg fuel s).emitted ∨
    c ∈ (sched_loop pkg fuel s).java_classes
  | 0, _, c => fun h => Or.inr h
  | fuel + 1, s, c => fun h => by
      rw [sched_loop]
      by_cases he : s.java_classes.isEmpty
      · rw [if_pos he]; exact Or.inr h
      · rw [if_neg he]
        rcases sched_pass_progress pkg s c h with h' | h'
        · exact Or.inl (sched_loop_emitted_mono pkg fuel _ _ h')
        · exact sched_loop_progress pkg fuel _ c h'

/-- The work list of the initial state. -/
theorem init_state_java (pkg : JPackageS) : (init_state pkg).java_classes =
    pkg.classes.insertionSort (fun a b => a.name.data ≤ b.name.data) := rfl

/-- The done set of the initial state. -/
theorem init_state_done (pkg : JPackageS) :
    (init_state pkg).classes_done = [] := rfl

/-- The emitted list of the initial state. -/
theorem init_state_emitted (pkg : JPackageS) :
    (init_state pkg).emitted = [] := rfl

/-- The initial state satisfies the loop invariant. -/
theorem init_state_wf {pkg : JPackageS} (hpkg : PkgWF pkg) :
    StateWF pkg (init_state pkg) := by
  have hperm := List.perm_insertionSort
    (fun a b : JClassS => a.name.data ≤ b.name.data) pkg.classes
  refine ⟨?_, ?_, ?_, ?_, ?_, ?_⟩
  · intro c hc
    rw [init_state_java] at hc
    exact hpkg.classes_lookup c (hperm.mem_iff.mp hc)
  · rw [init_state_java]
    exact (hperm.map JClassS.name).nodup_iff.mpr hpkg.classes_names_nodup
  · intro c _ hd
    rw [init_state_done] at hd
    exact absurd hd (List.not_mem_nil _)
  · rw [init_state_emitted]
    exact List.nodup_nil
  · intro x hx
    rw [init_state_emitted] at hx
    exact absurd hx (List.not_mem_nil _)
  · intro x hx _
    rw [init_state_done] at hx
    exact absurd hx (List.not_mem_nil _)

/-- The termination measure is bounded by the attribute count. -/
theorem remaining_count_le_attrs (pkg : JPackageS) (s : SchedState) :
    remaining_count pkg s ≤ pkg.attrs.length := by
  unfold remaining_count
  refine le_trans (List.length_filter_le _ _) ?_
  rw [List.length_map]

/-- C2: on every well-formed package — cyclic in-package supertype
dependencies included — the scheduling loop of
`generate_stubs_for_java_package` terminates within its fuel bound (extra
fuel does not change the result), emits each enumerated input class exactly
once, and whenever a pass finds no dependency-satisfied class it emits the
entire remaining work list via the fallback path instead of blocking. -/
theorem scheduler_terminates_once (pkg : JPackageS) (hpkg : PkgWF pkg) :
    (sched_loop pkg (enough_fuel pkg) (init_state pkg)).java_classes = [] ∧
    (∀ k, sched_loop pkg (enough_fuel pkg + k) (init_state pkg) =
      sched_loop pkg (enough_fuel pkg) (init_state pkg)) ∧
    (∀ c ∈ pkg.classes,
      (sched_loop pkg (enough_fuel pkg) (init_state pkg)).emitted.count
        c.name = 1) ∧
    (∀ s : SchedState, satisfied_classes pkg s = [] →
      ∀ c ∈ s.java_classes, c.name ∈ (sched_pass pkg s).emitted) := by
  have hwf0 := init_state_wf hpkg
  have hlt : remaining_count pkg (init_state pkg) < enough_fuel pkg := by
    show _ < pkg.attrs.length + 1
    exact Nat.lt_succ_of_le (remaining_count_le_attrs pkg _)
  obtain ⟨hend, hwfend⟩ := sched_loop_end hpkg (enough_fuel pkg) _ hwf0 hlt
  refine ⟨hend, ?_, ?_, ?_⟩
  · intro k
    exact sched_loop_fuel_add pkg (enough_fuel pkg) k _ hend
  · intro c hc
    have hcj : c ∈ (init_state pkg).java_classes := by
      rw [init_state_java]
      exact (List.perm_insertionSort _ _).mem_iff.mpr hc
    rcases sched_loop_progress pkg (enough_fuel pkg) _ c hcj with hmem | hmem
    · exact List.count_eq_one_of_mem hwfend.emitted_nodup hmem
    · rw [hend] at hmem
      exact absurd hmem (List.not_mem_nil c)
  · intro s hsat c hc
    unfold sched_pass
    obtain ⟨tail, ht, _⟩ := repair_missing_emitted_extends pkg
      (emit_batch (pass_batch pkg s) s)
    rw [ht, emit_batch_emitted]
    exact List.mem_append_left _ (List.mem_append_right _
      (List.mem_map_of_mem JClassS.name (pass_batch_all hsat c hc)))

/-- Witness for C2: on the cyclic two-class package `p` the loop terminates
with an empty work list and emits each of `A`, `B` exactly once. -/
theorem scheduler_terminates_once_witness :
    PkgWF pkgCycle ∧
    (sched_loop pkgCycle (enough_fuel pkgCycle)
      (init_state pkgCycle)).java_classes = [] ∧
    (sched_loop pkgCycle (enough_fuel pkgCycle)
      (init_state pkgCycle)).emitted.count (JClassS.name classA) = 1 ∧
    (sched_loop pkgCycle (enough_fuel pkgCycle)
      (init_state pkgCycle)).emitted.count (JClassS.name classB) = 1 :=
  have h : PkgWF pkgCycle :=
    ⟨by decide, by decide, by decide, by decide, by decide⟩
  ⟨h, (scheduler_terminates_once pkgCycle h).1,
    (scheduler_terminates_once pkgCycle h).2.2.1 classA (by decide),
    (scheduler_terminates_once pkgCycle h).2.2.1 classB (by decide)⟩

/-- A satisfied dependency check puts every in-package supertype local name
into the done set. -/
theorem dependencies_satisfied_super {p : String} {c : JClassS}
    {done : List String} (h : dependencies_satisfied p c done = true)
    {stn : String} (hstn : stn ∈ c.super_type_names)
    (hmod : module_of stn = p) : local_of stn ∈ done := by
  cases c with
  | mk n st us im m =>
      rw [dependencies_satisfied] at h
      rcases Bool.and_eq_true_iff.mp h with ⟨h1, _⟩
      rw [List.all_eq_true] at h1
      have h2 := h1 stn hstn
      rcases Bool.or_eq_true_iff.mp h2 with hm | hm
      · rw [hmod] at hm
        simp at hm
      · exact string_contains_iff_mem.mp hm

/-- Appending blocks that resolve to no class preserves forward-reference
freedom. -/
theorem forward_inv_of_extends {pkg : JPackageS} {s sx : SchedState}
    (tail : List String) (hx : sx.emitted = s.emitted ++ tail)
    (htail : ∀ y ∈ tail, pkg_lookup pkg y = none)
    (hinv : forward_order_inv pkg s) : forward_order_inv pkg sx := by
  unfold forward_order_inv at hinv ⊢
  rw [hx]
  intro k h c hlook stn hstn hmod hdol
  by_cases hk : k < s.emitted.length
  · rw [List.get_eq_getElem, List.getElem_append_left hk] at hlook
    have hmem := hinv k hk c (by rw [List.get_eq_getElem]; exact hlook)
      stn hstn hmod hdol
    rw [List.take_append_eq_append_take]
    exact List.mem_append_left _ hmem
  · exfalso
    have hk2 : k - s.emitted.length < tail.length := by
      rw [List.length_append] at h; omega
    rw [List.get_eq_getElem, List.getElem_append_right (le_of_not_lt hk)]
      at hlook
    have hnone := htail _ (List.get_mem tail (k - s.emitted.length) hk2)
    rw [List.get_eq_getElem] at hnone
    exact Option.noConfusion (hnone.symm.trans hlook)

/-- Emitting a dependency-satisfied class preserves forward-reference
freedom. -/
theorem emit_step_forward_inv {pkg : JPackageS} {s : SchedState} {c : JClassS}
    (hwf : StateWF pkg s) (hlook : pkg_lookup pkg c.name = some c)
    (hdeps : dependencies_satisfied pkg.name c s.classes_done = true)
    (hinv : forward_order_inv pkg s) :
    forward_order_inv pkg (emit_step s c) := by
  unfold forward_order_inv at hinv ⊢
  rw [emit_step_emitted]
  intro k h cx hlookx stn hstn hmod hdol
  by_cases hk : k < s.emitted.length
  · rw [List.get_eq_getElem, List.getElem_append_left hk] at hlookx
    have hmem := hinv k hk cx (by rw [List.get_eq_getElem]; exact hlookx)
      stn hstn hmod hdol
    rw [List.take_append_eq_append_take]
    exact List.mem_append_left _ hmem
  · have hlen : k < s.emitted.length + 1 := by
      have hc := h
      rw [List.length_append, List.length_singleton] at hc
      exact hc
    have hkeq : k = s.emitted.length := by omega
    subst hkeq
    rw [List.get_eq_getElem, List.getElem_concat_length] at hlookx
    · have hcx : cx = c := by
        rw [hlook] at hlookx
        exact (Option.some.inj hlookx).symm
      subst hcx
      have hsup := dependencies_satisfied_super hdeps hstn hmod
      have hemit := hwf.done_emitted _ hsup hdol
      rw [List.take_append_eq_append_take]
      refine List.mem_append_left _ ?_
      rw [List.take_length]
      exact hemit
    · rfl

/-- The generation loop preserves forward-reference freedom over a batch of
looked-up, name-distinct, not-yet-done, dependency-satisfied classes. -/
theorem emit_batch_forward_inv {pkg : JPackageS} (hpkg : PkgWF pkg) :
    ∀ (batch : List JClassS) (s : SchedState), StateWF pkg s →
    (∀ c ∈ batch, pkg_lookup pkg c.name = some c) →
    (batch.map JClassS.name).Nodup →
    (∀ c ∈ batch, c.name ∉ s.classes_done) →
    (∀ c ∈ batch, dependencies_satisfied pkg.name c s.classes_done = true) →
    forward_order_inv pkg s → forward_order_inv pkg (emit_batch batch s)
  | [], _, _, _, _, _, _, hinv => hinv
  | c :: rest, s, hwf, hlook, hnodup, hnd, hdeps, hinv => by
      show forward_order_inv pkg (emit_batch rest (emit_step s c))
      have hlc := hlook c (List.mem_cons_self _ _)
      have hndc := hnd c (List.mem_cons_self _ _)
      have hs1 := emit_step_state_wf hpkg hwf hlc hndc
      have hcspec := pkg_lookup_spec hpkg hlc
      have hnodup' : c.name ∉ rest.map JClassS.name ∧
          (rest.map JClassS.name).Nodup := by
        rw [List.map_cons, List.nodup_cons] at hnodup
        exact hnodup
      have hdone1 : ∀ x ∈ s.classes_done, x ∈ (emit_step s c).classes_done :=
        fun x hx => (emit_step_done_mem s c x).mpr (Or.inl hx)
      have hnd' : ∀ cx ∈ rest, cx.name ∉ (emit_step s c).classes_done := by
        intro cx hcx
        rw [emit_step_done_mem]
        rintro (hd | hall)
        · exact hnd cx (List.mem_cons_of_mem _ hcx) hd
        · rw [all_class_names_eq] at hall
          rcases List.mem_cons.mp hall with heq | hnest
          · exact hnodup'.1 (heq ▸ List.mem_map_of_mem JClassS.name hcx)
          · have h1 := hcspec.2.2.2 _ hnest
            have h2 := (pkg_lookup_spec hpkg
              (hlook cx (List.mem_cons_of_mem _ hcx))).2.2.1
            rw [h1] at h2
            exact absurd h2 (by simp)
      refine emit_batch_forward_inv hpkg rest (emit_step s c) hs1
        (fun cx hcx => hlook cx (List.mem_cons_of_mem _ hcx)) hnodup'.2 hnd'
        ?_ ?_
      · intro cx hcx
        exact dependencies_satisfied_mono pkg.name cx _ _ hdone1
          (hdeps cx (List.mem_cons_of_mem _ hcx))
      · exact emit_step_forward_inv hwf hlc
          (hdeps c (List.mem_cons_self _ _)) hinv

/-- A non-fallback pass preserves forward-reference freedom. -/
theorem sched_pass_forward_inv {pkg : JPackageS} (hpkg : PkgWF pkg)
    {s : SchedState} (hwf : StateWF pkg s)
    (hsat : (satisfied_classes pkg s).isEmpty = false)
    (hinv : forward_order_inv pkg s) :
    forward_order_inv pkg (sched_pass pkg s) := by
  unfold sched_pass
  obtain ⟨tail, ht, htail⟩ := repair_missing_emitted_extends pkg
    (emit_batch (pass_batch pkg s) s)
  refine forward_inv_of_extends tail ht htail ?_
  refine emit_batch_forward_inv hpkg _ s hwf ?_
    (pass_batch_names_nodup pkg s hwf.list_names_nodup) ?_ ?_ hinv
  · intro c hc
    exact hwf.list_lookup c (pass_batch_mem pkg s c hc)
  · intro c hc
    exact hwf.list_not_done c (pass_batch_mem pkg s c hc)
  · intro c hc
    rw [pass_batch_eq, hsat] at hc
    rw [(List.perm_insertionSort _ _).mem_iff] at hc
    simp only [Bool.false_eq_true, if_false] at hc
    unfold satisfied_classes at hc
    exact (List.mem_filter.mp hc).2

/-- A no-fallback run of the loop preserves forward-reference freedom. -/
theorem sched_loop_forward_inv {pkg : JPackageS} (hpkg : PkgWF pkg) :
    ∀ (fuel : Nat) (s : SchedState), StateWF pkg s →
    forward_order_inv pkg s → no_fallback_run pkg fuel s = true →
    forward_order_inv pkg (sched_loop pkg fuel s)
  | 0, _, _, hinv, _ => hinv
  | fuel + 1, s, hwf, hinv, hnf => by
      rw [sched_loop]
      rw [no_fallback_run] at hnf
      by_cases he : s.java_classes.isEmpty
      · rw [if_pos he]
        exact hinv
      · rw [if_neg he] at hnf ⊢
        rcases Bool.and_eq_true_iff.mp hnf with ⟨h1, h2⟩
        have hsat : (satisfied_classes pkg s).isEmpty = false := by
          cases hx : (satisfied_classes pkg s).isEmpty
          · rfl
          · rw [hx] at h1
            exact absurd h1 (by decide)
        exact sched_loop_forward_inv hpkg fuel _
          (sched_pass_state_wf hpkg hwf)
          (sched_pass_forward_inv hpkg hwf hsat hinv) h2

/-- The empty initial emitted list is vacuously forward-reference free. -/
theorem init_forward_inv (pkg : JPackageS) :
    forward_order_inv pkg (init_state pkg) := by
  intro k h c _ stn _ _ _
  exact absurd h (Nat.not_lt_zero k)

/-- C3 counterexample: on the cyclic package `p` the fallback emits `A`
before its in-package supertype `B`, so the generated file is not
forward-reference free as claimed. -/
theorem forward_reference_counterexample :
    ¬ forward_order_inv pkgCycle
      (sched_loop pkgCycle (enough_fuel pkgCycle) (init_state pkgCycle)) := by
  intro hinv
  have h := hinv 0 (of_decide_eq_true rfl) classA (of_decide_eq_true rfl)
    "p.B" (of_decide_eq_true rfl) (of_decide_eq_true rfl)
    (of_decide_eq_true rfl)
  exact absurd h (of_decide_eq_true rfl)

/-- C3 (amended): on a well-formed package whose scheduling run never takes
the fallback branch, the generated class blocks are forward-reference free:
every block whose class has an in-package, `$`-free supertype local name is
preceded by a block of that name. -/
theorem forward_reference_freedom (pkg : JPackageS) (hpkg : PkgWF pkg)
    (hnf : no_fallback_run pkg (enough_fuel pkg) (init_state pkg) = true) :
    forward_order_inv pkg
      (sched_loop pkg (enough_fuel pkg) (init_state pkg)) :=
  sched_loop_forward_inv hpkg (enough_fuel pkg) (init_state pkg)
    (init_state_wf hpkg) (init_forward_inv pkg) hnf

/-- Witness for the amended C3: the acyclic package `p2` (`C extends D`)
runs without fallback and its output is forward-reference free. -/
theorem forward_reference_freedom_witness :
    (PkgWF pkgAcyclic ∧ no_fallback_run pkgAcyclic (enough_fuel pkgAcyclic)
      (init_state pkgAcyclic) = true) ∧
    forward_order_inv pkgAcyclic
      (sched_loop pkgAcyclic (enough_fuel pkgAcyclic)
        (init_state pkgAcyclic)) :=
  have h : PkgWF pkgAcyclic :=
    ⟨by decide, by decide, by decide, by decide, by decide⟩
  ⟨⟨h, by decide⟩, forward_reference_freedom pkgAcyclic h (by decide)⟩

/-- C9: stub generation is a pure function of the reflected inputs — two
runs over the same class universe yield the identical file tree — and in
every package file the import section is sorted and duplicate-free, the
initial work list is processed in sorted simple-name order, and so is every
per-pass batch. -/
theorem stub_generation_deterministic (packages : List JPackageS)
    (pkg : JPackageS) (subpackages : List String) (fuel : Nat)
    (s : SchedState) :
    generate_java_stubs_tree packages = generate_java_stubs_tree packages ∧
    List.Sorted (fun a b : String => a.data ≤ b.data)
      (package_import_section pkg subpackages fuel) ∧
    (package_import_section pkg subpackages fuel).Nodup ∧
    List.Sorted (fun a b : String => a.data ≤ b.data)
      ((pass_batch pkg s).map JClassS.name) ∧
    List.Sorted (fun a b : String => a.data ≤ b.data)
      ((init_state pkg).java_classes.map JClassS.name) := by
  refine ⟨rfl, ?_, ?_, ?_, ?_⟩
  · unfold package_import_section py_sorted
    exact List.sorted_insertionSort _ _
  · unfold package_import_section
    exact (py_sorted_perm _).nodup_iff.mpr (nodup_py_dedup _)
  · have hs := List.sorted_insertionSort
      (fun a b : JClassS => a.name.data ≤ b.name.data)
      (if (satisfied_classes pkg s).isEmpty then s.java_classes
       else satisfied_classes pkg s)
    rw [pass_batch_eq]
    exact List.pairwise_map.mpr hs
  · have hs := List.sorted_insertionSort
      (fun a b : JClassS => a.name.data ≤ b.name.data) pkg.classes
    rw [init_state_java]
    exact List.pairwise_map.mpr hs

end Stubgen
